import Mathlib

/-!
Verification of the planning-poker session server (`src/server.py`).

The Python source is shallowly embedded: Python dicts become association
lists over `String` keys, Python `datetime` instants become exact rationals
(seconds), Python numbers become `ℤ`/`ℚ` (floats carry no NaN/Inf in the
scenarios covered by the claims, so exact rationals are faithful), and the
dynamically-typed Socket.IO payload values become the `PyVal` sum type,
mirroring Python's `isinstance` semantics (in particular `bool` is an
instance of `int` in Python, which `pyNum` reproduces).

Each Socket.IO handler (`join`, `vote`, `requestNewRound`,
`hostVotingDecision`, `disconnect`), the rate limiter
`check_socket_rate_limit`, the deck-normalization block of `join`, and the
statistics block of the `countdown` task are translated as pure functions
from server state to server state plus the list of emitted events.
Concurrency (the single-threaded cooperative event loop) is modelled by
step relations: handlers are atomic except where the source contains an
`await` between a mutation and a later check, which is the case only inside
`vote` (the `usersUpdate` emit on line 590 sits between the `all_voted`
computation and the `revealed` check), so `vote` is split into
`votePhase1` / `votePhase2` at exactly that await point.
-/

/-! ## Python values -/

/-- A Socket.IO payload value, as discriminated by the `isinstance` checks in
`server.py`.  Lists only appear as the `deck` payload of `join` and are
carried separately there, so `PyVal` itself is flat. -/
inductive PyVal where
  | vint (n : ℤ)
  | vfloat (q : ℚ)
  | vbool (b : Bool)
  | vstr (s : String)
  | vnone
  | vother
deriving DecidableEq

/-- Python `int(q)` on a float: truncation toward zero. -/
def pytrunc (q : ℚ) : ℤ := if 0 ≤ q then ⌊q⌋ else -⌊-q⌋

/-- `isinstance(v, (int, float))` combined with `int(v)`.
In Python `bool` is a subclass of `int` (`int(True) = 1`), which is why
`vbool` is numeric here — this faithfully reproduces the source's behaviour
on boolean payloads. -/
def pyNum : PyVal → Option ℤ
  | .vint n => some n
  | .vfloat q => some (pytrunc q)
  | .vbool b => some (bif b then 1 else 0)
  | _ => none

/-- `isinstance(v, str)`, returning the string. -/
def getStrV : PyVal → Option String
  | .vstr s => some s
  | _ => none

/-! ## Validation regexes (`USERNAME_RE`, `SESSION_ID_RE`, `CLIENT_ID_RE`) -/

/-- Character class `[A-Za-z0-9_\-]`. -/
def idChar (c : Char) : Bool := c.isAlpha || c.isDigit || c = '_' || c = '-'

/-- `SESSION_ID_RE = ^[A-Za-z0-9_\-]{16}$`. -/
def sessionIdOk (s : String) : Bool :=
  decide (s.length = 16) && s.toList.all idChar

/-- `CLIENT_ID_RE = ^[a-zA-Z0-9\-_]{7,36}$`. -/
def clientIdOk (s : String) : Bool :=
  decide (7 ≤ s.length) && decide (s.length ≤ 36) && s.toList.all idChar

/-- `USERNAME_RE = ^[A-Za-z]{1,20}$`. -/
def usernameOk (s : String) : Bool :=
  decide (1 ≤ s.length) && decide (s.length ≤ 20) && s.toList.all Char.isAlpha

/-! ## Association lists (Python `dict`s with `String` keys) -/

/-- Python `d[k]` lookup (first occurrence; our maps keep keys unique). -/
def alookup {α : Type} (k : String) : List (String × α) → Option α
  | [] => none
  | (k', v) :: rest => if k' = k then some v else alookup k rest

/-- Python `d[k] = v`: replace the value at the first occurrence of `k`,
keeping its position (Python dicts keep insertion order on update), or
append when absent. -/
def dictSet {α : Type} (k : String) (v : α) : List (String × α) → List (String × α)
  | [] => [(k, v)]
  | (k', v') :: rest => if k' = k then (k, v) :: rest else (k', v') :: dictSet k v rest

/-- Python `del d[k]`. -/
def eraseKey {α : Type} (k : String) : List (String × α) → List (String × α)
  | [] => []
  | (k', v) :: rest => if k' = k then rest else (k', v) :: eraseKey k rest

theorem alookup_cons_eq {α : Type} (k : String) (b : α) (rest : List (String × α)) :
    alookup k ((k, b) :: rest) = some b := by
  simp [alookup]

theorem alookup_cons_ne {α : Type} (a k : String) (b : α) (rest : List (String × α))
    (h : ¬ (a = k)) : alookup k ((a, b) :: rest) = alookup k rest := by
  simp [alookup, h]

theorem dictSet_cons_eq {α : Type} (k : String) (v b : α) (rest : List (String × α)) :
    dictSet k v ((k, b) :: rest) = (k, v) :: rest := by
  simp [dictSet]

theorem dictSet_cons_ne {α : Type} (a k : String) (v b : α) (rest : List (String × α))
    (h : ¬ (a = k)) : dictSet k v ((a, b) :: rest) = (a, b) :: dictSet k v rest := by
  simp [dictSet, h]

theorem alookup_dictSet {α : Type} (k k' : String) (v : α) (l : List (String × α)) :
    alookup k' (dictSet k v l) = if k' = k then some v else alookup k' l := by
  induction l with
  | nil =>
    by_cases h : k' = k
    · subst h; simp [dictSet, alookup]
    · have h2 : ¬ (k = k') := fun hh => h hh.symm
      simp [dictSet, alookup, h, h2]
  | cons p rest ih =>
    obtain ⟨a, b⟩ := p
    by_cases ha : a = k
    · subst ha
      by_cases h : k' = a
      · subst h; simp [dictSet, alookup]
      · have h2 : ¬ (a = k') := fun hh => h hh.symm
        simp [dictSet, alookup, h, h2]
    · by_cases hak : a = k'
      · subst hak
        simp [dictSet, alookup, ha, fun hh : a = k => ha hh]
      · simp [dictSet, alookup, ha, hak, ih]

theorem mem_dictSet {α : Type} (k : String) (v : α) (l : List (String × α)) :
    ∀ q ∈ dictSet k v l, q ∈ l ∨ q = (k, v) := by
  induction l with
  | nil =>
    intro q hq
    simp only [dictSet, List.mem_singleton] at hq
    right; exact hq
  | cons p rest ih =>
    obtain ⟨a, b⟩ := p
    by_cases ha : a = k
    · subst ha
      intro q hq
      rw [dictSet_cons_eq] at hq
      rcases List.mem_cons.mp hq with h | h
      · right; exact h
      · left; exact List.mem_cons_of_mem _ h
    · intro q hq
      rw [dictSet_cons_ne _ _ _ _ _ ha] at hq
      rcases List.mem_cons.mp hq with h | h
      · left; subst h; exact List.mem_cons_self _ _
      · rcases ih q h with h' | h'
        · left; exact List.mem_cons_of_mem _ h'
        · right; exact h'

theorem dictSet_self {α : Type} (k : String) (v : α) (l : List (String × α))
    (h : alookup k l = some v) : dictSet k v l = l := by
  induction l with
  | nil => simp [alookup] at h
  | cons p rest ih =>
    obtain ⟨a, b⟩ := p
    by_cases ha : a = k
    · subst ha
      rw [alookup_cons_eq, Option.some.injEq] at h
      rw [dictSet_cons_eq, h]
    · rw [alookup_cons_ne _ _ _ _ ha] at h
      rw [dictSet_cons_ne _ _ _ _ _ ha, ih h]

theorem mem_eraseKey {α : Type} (k : String) (l : List (String × α)) :
    ∀ q ∈ eraseKey k l, q ∈ l := by
  induction l with
  | nil => intro q hq; simp [eraseKey] at hq
  | cons p rest ih =>
    obtain ⟨a, b⟩ := p
    by_cases ha : a = k
    · intro q hq
      simp only [eraseKey, if_pos ha] at hq
      exact List.mem_cons_of_mem _ hq
    · intro q hq
      simp only [eraseKey, if_neg ha] at hq
      rcases List.mem_cons.mp hq with h | h
      · subst h; exact List.mem_cons_self _ _
      · exact List.mem_cons_of_mem _ (ih q h)

theorem alookup_mem {α : Type} (k : String) (v : α) (l : List (String × α))
    (h : alookup k l = some v) : (k, v) ∈ l := by
  induction l with
  | nil => simp [alookup] at h
  | cons p rest ih =>
    obtain ⟨a, b⟩ := p
    by_cases ha : a = k
    · subst ha
      rw [alookup_cons_eq, Option.some.injEq] at h
      subst h; exact List.mem_cons_self _ _
    · rw [alookup_cons_ne _ _ _ _ ha] at h
      exact List.mem_cons_of_mem _ (ih h)

/-- `sessions` after `del sessions[sid]` (removal of the binding for `k`). -/
def adelete {α : Type} (k : String) : List (String × α) → List (String × α)
  | [] => []
  | (k', v) :: rest => if k' = k then adelete k rest else (k', v) :: adelete k rest

theorem alookup_adelete_self {α : Type} (k : String) (l : List (String × α)) :
    alookup k (adelete k l) = none := by
  induction l with
  | nil => simp [adelete, alookup]
  | cons p rest ih =>
    obtain ⟨a, b⟩ := p
    by_cases ha : a = k
    · simpa [adelete, ha] using ih
    · simpa [adelete, alookup, ha] using ih

theorem alookup_adelete_ne {α : Type} (k k' : String) (l : List (String × α))
    (h : k' ≠ k) : alookup k' (adelete k l) = alookup k' l := by
  induction l with
  | nil => simp [adelete]
  | cons p rest ih =>
    obtain ⟨a, b⟩ := p
    by_cases ha : a = k
    · subst ha
      have h2 : ¬ (a = k') := fun hh => h hh.symm
      simpa [adelete, alookup, h2] using ih
    · by_cases hak : a = k'
      · subst hak
        simp [adelete, alookup, ha]
      · simpa [adelete, alookup, ha, hak] using ih

theorem mem_adelete {α : Type} (k : String) (l : List (String × α)) :
    ∀ q ∈ adelete k l, q ∈ l := by
  induction l with
  | nil => intro q hq; simp [adelete] at hq
  | cons p rest ih =>
    obtain ⟨a, b⟩ := p
    by_cases ha : a = k
    · intro q hq
      simp only [adelete, if_pos ha] at hq
      exact List.mem_cons_of_mem _ (ih q hq)
    · intro q hq
      simp only [adelete, if_neg ha] at hq
      rcases List.mem_cons.mp hq with h | h
      · subst h; exact List.mem_cons_self _ _
      · exact List.mem_cons_of_mem _ (ih q h)

/-! ## Rate limiter (`check_socket_rate_limit`, server.py lines 98-114)

Time instants are integers (Python `datetime` values are exact integer
microsecond counts; the concrete scenarios below use whole seconds).  The two-level
`defaultdict` is addressed per `(socket, action)` pair; the function below
is the body for one such cell, exactly as in the source: prune entries
older than the window, deny at the budget, append the current instant only
when allowed.  The pruned list is stored back in both cases (the source
assigns the pruned list before checking the limit). -/

structure RLResult where
  allowed : Bool
  entries : List ℤ
deriving DecidableEq

def check_socket_rate_limit (now : ℤ) (limit : ℕ) (window : ℤ)
    (entries : List ℤ) : RLResult :=
  if limit ≤ (entries.filter (fun t => now - t < window)).length then
    ⟨false, entries.filter (fun t => now - t < window)⟩
  else ⟨true, entries.filter (fun t => now - t < window) ++ [now]⟩

/-! ## Data model (the `sessions` dict, server.py lines 33-56, 208-215) -/

/-- One member record (`user_data`, server.py lines 528-536).
`vote` is `None` until the member votes; the stored vote is the *raw*
payload value.  `wantsToVote` is `none` when the key is absent. -/
structure User where
  username : String
  vote : Option PyVal
  isHost : Bool
  clientId : String
  wantsToVote : Option PyVal
deriving DecidableEq

/-- One session record (server.py lines 208-215). -/
structure Session where
  users : List (String × User)
  revealed : Bool
  hostClientId : Option String
  createdAt : ℤ
  lastActivity : ℤ
  deck : List ℤ
deriving DecidableEq

/-- The global `sessions` dict. -/
abbrev Sessions : Type := List (String × Session)

/-- Reveal statistics (`vote_stats`, server.py lines 612-625); all three
fields are absent when no member holds a numeric in-deck vote. -/
structure VoteStats where
  average : Option ℚ
  median : Option ℤ
  outliers : Option (List String)
deriving DecidableEq

/-- Events emitted to clients (`sio.emit` calls). -/
inductive Emit where
  | joinFailed (reason : String) (room : String)
  | usersUpdate (users : List (String × User)) (room : String)
  | askHostToJoinVoting (room : String)
  | redirectToNewSession (url : String) (usernames : List (String × String))
      (wants : List (String × Option PyVal)) (room : String)
  | revealVotes (users : List (String × User)) (stats : VoteStats) (room : String)
deriving DecidableEq

/-- A step of the `requestNewRound` handler's observable behaviour, in
program order: emitting an event or deleting a session. -/
inductive NRAction where
  | emitA (e : Emit)
  | deleteA (id : String)
deriving DecidableEq

def MAX_USERS_PER_SESSION : ℕ := 100
def DEFAULT_DECK : List ℤ := [1, 2, 3, 5, 8, 13, 21]
def JOIN_RATE_LIMIT : ℤ := 5

/-! ## Deck normalization (the deck block of `join`, server.py lines 498-519)

The source keeps a `seen` set alongside the `clean` list; since `seen`
always holds exactly the elements of `clean`, the set is represented by
membership in the accumulator. -/

/-- One iteration of the cleaning loop (server.py lines 506-514). -/
def cleanStep (acc : List ℤ) (v : PyVal) : List ℤ :=
  match pyNum v with
  | none => acc
  | some n =>
    if 1 ≤ n ∧ n ≤ 1000 then
      if n ∈ acc then acc else acc ++ [n]
    else acc

def cleanDeck (l : List PyVal) : List ℤ := l.foldl cleanStep []

/-- The whole deck block: `deckPayload = some l` iff `data["deck"]` was a
Python list (`isinstance(deck, list)`); size gate `[2,20]`, then the
cleaning loop, then acceptance only when at least `DECK_SIZE_MIN = 2`
valid values remain. -/
def applyDeck (deckPayload : Option (List PyVal)) (current : List ℤ) : List ℤ :=
  match deckPayload with
  | none => current
  | some l =>
    if ¬ (2 ≤ l.length ∧ l.length ≤ 20) then current
    else
      if cleanDeck l ≠ [] ∧ 2 ≤ (cleanDeck l).length then cleanDeck l else current

/-! ## The `join` handler (server.py lines 440-545) -/

structure JoinData where
  isDict : Bool
  deck : Option (List PyVal)
  clientId : PyVal
  ip : Option String
  sessionId : PyVal
  wantsToVote : Option PyVal
  username : PyVal
deriving DecidableEq

structure JoinRes where
  sessions : Sessions
  ledger : List ℤ
  lastJoin : List (String × ℤ)
  emits : List Emit
  joined : Bool
deriving DecidableEq

structure JoinCoreRes where
  sessions : Sessions
  lastJoin : List (String × ℤ)
  emits : List Emit
  joined : Bool
deriving DecidableEq

def joinFailC (S : Sessions) (lj : List (String × ℤ)) (reason sid : String) : JoinCoreRes :=
  ⟨S, lj, [Emit.joinFailed reason sid], false⟩

/-- The `last_join_time` cooldown gate (server.py line 475): the map is a
`defaultdict(lambda: datetime.min)`, so an absent address is infinitely old
and never trips the gate. -/
def cooldownHit (now : ℤ) (lastJoin : List (String × ℤ)) (ip : Option String) : Bool :=
  match ip with
  | none => false
  | some a =>
    match alookup a lastJoin with
    | none => false
    | some t => decide (now - t < JOIN_RATE_LIMIT)

/-- The tail of `join` from the host/deck assignment on (server.py lines
496-545), reached only with a validated session, username and client id.
Note the source order: on a host-less session the host (and possibly the
deck) is assigned *before* the duplicate-client check, so those mutations
are written back even when the join then fails as a duplicate. -/
def joinCore3 (nowUtc : ℤ) (sid sidStr cid uname : String)
    (deckPayload : Option (List PyVal)) (wants : Option PyVal)
    (lj : List (String × ℤ)) (S : Sessions) (sess : Session) : JoinCoreRes :=
  let sess1 := if sess.hostClientId = none then
      { sess with hostClientId := some cid, deck := applyDeck deckPayload sess.deck }
    else sess
  if sess1.users.any (fun q => q.2.clientId == cid) then
    ⟨dictSet sidStr sess1 S, lj, [Emit.joinFailed "Client already connected" sid], false⟩
  else
    ⟨dictSet sidStr { sess1 with
        users := dictSet sid ⟨uname, none, decide (sess1.hostClientId = some cid), cid, wants⟩
          sess1.users,
        lastActivity := nowUtc } S,
     lj,
     Emit.usersUpdate (dictSet sid
         ⟨uname, none, decide (sess1.hostClientId = some cid), cid, wants⟩ sess1.users) sidStr ::
       (if decide (sess1.hostClientId = some cid) && wants.isNone then
          [Emit.askHostToJoinVoting sid]
        else []),
     true⟩

/-- `join` from the session lookup on (server.py lines 482-494): session
existence, per-session capacity, username validation. -/
def joinCore2 (nowUtc : ℤ) (sid sidStr cid : String) (d : JoinData)
    (lj : List (String × ℤ)) (S : Sessions) : JoinCoreRes :=
  match alookup sidStr S with
  | none => joinFailC S lj "Session not found" sid
  | some sess =>
    if MAX_USERS_PER_SESSION ≤ sess.users.length then
      joinFailC S lj "Session is full" sid
    else
      match getStrV d.username with
      | none => joinFailC S lj "Invalid username (letters only, max 20)." sid
      | some uname =>
        if usernameOk uname = false then
          joinFailC S lj "Invalid username (letters only, max 20)." sid
        else
          joinCore3 nowUtc sid sidStr cid uname d.deck d.wantsToVote lj S sess

/-- `join` after the per-connection rate gate (server.py lines 448-545):
payload-shape and format validations, the per-address cooldown (which
overwrites `last_join_time[ip]` *before* the session is even looked up),
then `joinCore2`. -/
def joinCore (now nowUtc : ℤ) (sid : String) (d : JoinData)
    (lastJoin : List (String × ℤ)) (S : Sessions) : JoinCoreRes :=
  if d.isDict = false then joinFailC S lastJoin "Invalid request format" sid
  else
    match getStrV d.sessionId with
    | none => joinFailC S lastJoin "Invalid session ID" sid
    | some sidStr =>
      if sessionIdOk sidStr = false then joinFailC S lastJoin "Invalid session ID" sid
      else
        match getStrV d.clientId with
        | none => joinFailC S lastJoin "Invalid client ID" sid
        | some cid =>
          if clientIdOk cid = false then joinFailC S lastJoin "Invalid client ID" sid
          else if cooldownHit now lastJoin d.ip then
            joinFailC S lastJoin "Too many join attempts. Please wait." sid
          else
            joinCore2 nowUtc sid sidStr cid d
              (match d.ip with | some a => dictSet a now lastJoin | none => lastJoin) S

/-- Faithful translation of the whole `join` handler.  `ledger` is the
`socket_rate_limits[sid]["join"]` cell, `lastJoin` the `last_join_time`
map, `d.ip` the source address extracted from `data["asgi.scope"]`.  The
pruned (and, when allowed, extended) ledger cell is stored back on every
path, exactly as in the source. -/
def joinH (now nowUtc : ℤ) (sid : String) (d : JoinData) (ledger : List ℤ)
    (lastJoin : List (String × ℤ)) (S : Sessions) : JoinRes :=
  if (check_socket_rate_limit now 5 60 ledger).allowed = false then
    ⟨S, (check_socket_rate_limit now 5 60 ledger).entries, lastJoin,
     [Emit.joinFailed "Too many join attempts" sid], false⟩
  else
    ⟨(joinCore now nowUtc sid d lastJoin S).sessions,
     (check_socket_rate_limit now 5 60 ledger).entries,
     (joinCore now nowUtc sid d lastJoin S).lastJoin,
     (joinCore now nowUtc sid d lastJoin S).emits,
     (joinCore now nowUtc sid d lastJoin S).joined⟩

/-! ## The `vote` handler (server.py lines 547-632)

The handler suspends exactly once between a mutation and a later check:
the `await sio.emit("usersUpdate", ...)` on line 590 sits between
recording the vote / computing `all_voted` (lines 581-588) and the
`revealed` check-and-set (lines 592-593).  `votePhase1` is everything up
to and including that emit; `votePhase2` is the remainder, which reads
`sessions[session_id]` again (a `KeyError`, modelled as `none`, if the
session was deleted while suspended).  The rate gate is abstracted to the
boolean `rlOk` (its internals are `check_socket_rate_limit`, proved
separately). -/

structure VoteData where
  isDict : Bool
  sessionId : PyVal
  value : PyVal
deriving DecidableEq

structure VotePhase1Res where
  sessions : Sessions
  emits : List Emit
  pending : Option (String × Bool)
deriving DecidableEq

/-- Members counted toward completion: everyone except a host with
`wantsToVote is False` (Python identity test against the bool `False`). -/
def effectiveVoters (users : List (String × User)) : List (String × User) :=
  users.filter (fun q => !(q.2.isHost && q.2.wantsToVote == some (PyVal.vbool false)))

/-- `len(users) > 0 and all(u["vote"] is not None for u in users)`. -/
def allVotedCheck (users : List (String × User)) : Bool :=
  !users.isEmpty && users.all (fun q => !q.2.vote.isNone)

def votePhase1 (sid : String) (d : VoteData) (rlOk : Bool) (S : Sessions) : VotePhase1Res :=
  if rlOk = false then ⟨S, [], none⟩
  else if d.isDict = false then ⟨S, [], none⟩
  else
    match getStrV d.sessionId with
    | none => ⟨S, [], none⟩
    | some sidStr =>
      if sessionIdOk sidStr = false then ⟨S, [], none⟩
      else
        match alookup sidStr S with
        | none => ⟨S, [], none⟩
        | some sess =>
          if !((pyNum d.value).isSome || d.value == PyVal.vstr "?") then ⟨S, [], none⟩
          else
            let deckOk :=
              if d.value == PyVal.vstr "?" then true
              else
                match pyNum d.value with
                | some n => decide (n ∈ sess.deck)
                | none => true
            if deckOk = false then ⟨S, [], none⟩
            else
              match alookup sid sess.users with
              | none => ⟨S, [], none⟩
              | some u =>
                let u' := { u with vote := some d.value }
                let users' := dictSet sid u' sess.users
                let sess' := { sess with users := users' }
                let eff := effectiveVoters users'
                let av := allVotedCheck eff
                ⟨dictSet sidStr sess' S, [Emit.usersUpdate users' sidStr], some (sidStr, av)⟩

/-- The completion check after the awaited emit (server.py lines 592-593,
632): read `sessions[session_id]["revealed"]` (raising, i.e. `none`, when
the session has been deleted in the meantime), and when `all_voted` holds
and the round is not yet revealed, set `revealed = True` and spawn the
countdown task (the returned `Bool`). -/
def votePhase2 (sidStr : String) (av : Bool) (S : Sessions) : Option (Sessions × Bool) :=
  match alookup sidStr S with
  | none => none
  | some sess =>
    if av && !sess.revealed then
      some (dictSet sidStr { sess with revealed := true } S, true)
    else some (S, false)

structure VoteRes where
  sessions : Sessions
  emits : List Emit
  spawned : Bool
deriving DecidableEq

/-- The whole `vote` handler run without interleaving: phase 1 followed
immediately by phase 2. -/
def voteH (sid : String) (d : VoteData) (rlOk : Bool) (S : Sessions) : VoteRes :=
  match votePhase1 sid d rlOk S with
  | ⟨S1, E, none⟩ => ⟨S1, E, false⟩
  | ⟨S1, E, some (sidStr, av)⟩ =>
    match votePhase2 sidStr av S1 with
    | none => ⟨S1, E, false⟩
    | some (S2, sp) => ⟨S2, E, sp⟩

/-! ## The countdown / reveal statistics (server.py lines 596-632) -/

/-- Python `sorted` on the list of rank indices (insertion sort; ascending,
which on naturals coincides with `sorted`). -/
def insertSorted (x : ℕ) : List ℕ → List ℕ
  | [] => [x]
  | y :: ys => if x ≤ y then x :: y :: ys else y :: insertSorted x ys

def isort (l : List ℕ) : List ℕ := l.foldr insertSorted []

/-- Python `round(q, 2)`: round half to even at two decimal places.
Floats are modelled as exact rationals, so the tie rule is Python's
banker's rounding on the exact value. -/
def pyRound2 (q : ℚ) : ℚ :=
  let s := q * 100
  let f : ℤ := ⌊s⌋
  let r := s - f
  let n : ℤ :=
    if r < 1/2 then f
    else if 1/2 < r then f + 1
    else if f % 2 = 0 then f else f + 1
  (n : ℚ) / 100

/-- The `voted` comprehension (server.py lines 606-610): members whose
stored vote is numeric (`isinstance(u["vote"], (int, float))`, which
includes bools) and whose `int(...)` image is a key of `index_of`, i.e. a
deck member; the pair carries the *coerced* integer. -/
def voted_of (deck : List ℤ) (users : List (String × User)) : List (String × ℤ) :=
  users.filterMap (fun q =>
    match q.2.vote with
    | none => none
    | some v =>
      match pyNum v with
      | none => none
      | some n => if n ∈ deck then some (q.2.username, n) else none)

/-- The `vote_stats` block (server.py lines 612-625).  `index_of` is the
rank of a value in the deck (session decks are duplicate-free, so the
dict comprehension's last-occurrence index is the unique occurrence).
`STEP_THRESHOLD = 2`. -/
def compute_stats (deck : List ℤ) (users : List (String × User)) : VoteStats :=
  let voted := voted_of deck users
  if voted.isEmpty then ⟨none, none, none⟩
  else
    let avg : ℚ := ((voted.map (fun p => (p.2 : ℚ))).sum) / (voted.length : ℚ)
    let idxs := isort (voted.map (fun p => deck.indexOf p.2))
    let median_idx := idxs.getD (voted.length / 2) 0
    let median := deck.getD median_idx 0
    let outliers :=
      (voted.filter
        (fun p => decide (2 ≤ ((deck.indexOf p.2 : ℤ) - (median_idx : ℤ)).natAbs))).map
        (fun p => p.1)
    ⟨some (pyRound2 avg), some median, some outliers⟩

/-- The tail of the `countdown` task after its last `await` (server.py
lines 603-630): it reads `sessions[session_id]` with **no** existence
guard — if the session was deleted while the task slept, the subscript
raises `KeyError` (modelled as `Except.error`) and the task faults.  The
three subscripts in the source happen with no `await` between them, so a
single lookup is faithful. -/
def countdown_finish (S : Sessions) (sessionId : String) : Except String (List Emit) :=
  match alookup sessionId S with
  | none => Except.error "KeyError"
  | some sess =>
    Except.ok [Emit.revealVotes sess.users (compute_stats sess.deck sess.users) sessionId]

/-! ## The `requestNewRound` handler (server.py lines 634-681) -/

structure NRData where
  isDict : Bool
  sessionId : PyVal
deriving DecidableEq

structure NRRes where
  sessions : Sessions
  trace : List NRAction
deriving DecidableEq

/-- Faithful translation of `requestNewRound`.  `newId` stands for the
fresh `secrets.token_urlsafe(12)[:16]`; the trace records, in program
order, the redirect broadcast to the old room followed by the deletion of
the old session. -/
def requestNewRoundH (nowUtc : ℤ) (sid : String) (d : NRData) (rlOk : Bool)
    (newId : String) (S : Sessions) : NRRes :=
  if rlOk = false then
    ⟨S, [NRAction.emitA (Emit.joinFailed "Too many new round requests" sid)]⟩
  else if d.isDict = false then ⟨S, []⟩
  else
    match getStrV d.sessionId with
    | none => ⟨S, []⟩
    | some sidStr =>
      if sessionIdOk sidStr = false then ⟨S, []⟩
      else
        match alookup sidStr S with
        | none => ⟨S, []⟩
        | some old =>
          match alookup sid old.users with
          | none => ⟨S, [NRAction.emitA (Emit.joinFailed "Only host can request new round" sid)]⟩
          | some u =>
            if u.isHost = false then
              ⟨S, [NRAction.emitA (Emit.joinFailed "Only host can request new round" sid)]⟩
            else
              let newSess : Session := ⟨[], false, old.hostClientId, nowUtc, nowUtc, old.deck⟩
              let S1 := dictSet newId newSess S
              let unames := old.users.map (fun q => (q.1, q.2.username))
              let wmap := old.users.map (fun q => (q.1, q.2.wantsToVote))
              ⟨adelete sidStr S1,
               [NRAction.emitA
                  (Emit.redirectToNewSession ("/session/" ++ newId) unames wmap sidStr),
                NRAction.deleteA sidStr]⟩

/-! ## The `hostVotingDecision` handler (server.py lines 683-710) -/

structure HVDData where
  isDict : Bool
  sessionId : PyVal
  wantsToVote : PyVal
deriving DecidableEq

def hostVotingDecisionH (sid : String) (d : HVDData) (rlOk : Bool) (S : Sessions) :
    Sessions × List Emit :=
  if rlOk = false then (S, [])
  else if d.isDict = false then (S, [])
  else
    match getStrV d.sessionId with
    | none => (S, [])
    | some sidStr =>
      if sessionIdOk sidStr = false then (S, [])
      else
        match d.wantsToVote with
        | PyVal.vbool b =>
          (match alookup sidStr S with
           | none => (S, [])
           | some sess =>
             match alookup sid sess.users with
             | none => (S, [])
             | some u =>
               if u.isHost then
                 let u' := { u with wantsToVote := some (PyVal.vbool b) }
                 let sess' := { sess with users := dictSet sid u' sess.users }
                 (dictSet sidStr sess' S, [Emit.usersUpdate sess'.users sidStr])
               else (S, []))
        | _ => (S, [])

/-! ## The `disconnect` handler (server.py lines 432-438) -/

def disconnectH (sid : String) (S : Sessions) : Sessions × List Emit :=
  match S.find? (fun p => (alookup sid p.2.users).isSome) with
  | none => (S, [])
  | some p =>
    let sess' := { p.2 with users := eraseKey sid p.2.users }
    (dictSet p.1 sess' S, [Emit.usersUpdate sess'.users p.1])

/-! ## Specification-side deck pipeline, for claim C4 -/

/-- Spec side: "coerces each value to an integer, discards values outside
[1,1000] or with wrong type". -/
def validVal (v : PyVal) : Option ℤ :=
  match pyNum v with
  | some n => if 1 ≤ n ∧ n ≤ 1000 then some n else none
  | none => none

/-- Spec side: "de-duplicates, keeping first occurrence". -/
def dedupFirst : List ℤ → List ℤ
  | [] => []
  | x :: xs => x :: dedupFirst (xs.filter (fun y => y != x))
termination_by l => l.length
decreasing_by
  simp only [List.length_cons]
  exact Nat.lt_succ_of_le (List.length_filter_le _ _)

theorem validVal_eq_some {v : PyVal} {n : ℤ} (hv : validVal v = some n) :
    pyNum v = some n ∧ (1 ≤ n ∧ n ≤ 1000) := by
  cases hp : pyNum v with
  | none => simp [validVal, hp] at hv
  | some m =>
    simp only [validVal, hp] at hv
    by_cases hr : 1 ≤ m ∧ m ≤ 1000
    · rw [if_pos hr] at hv
      injection hv with h
      subst h
      exact ⟨rfl, hr⟩
    · rw [if_neg hr] at hv; cases hv

theorem validVal_eq_none {v : PyVal} (acc : List ℤ) (hv : validVal v = none) :
    cleanStep acc v = acc := by
  cases hp : pyNum v with
  | none => simp [cleanStep, hp]
  | some m =>
    simp only [validVal, hp] at hv
    by_cases hr : 1 ≤ m ∧ m ≤ 1000
    · rw [if_pos hr] at hv; cases hv
    · simp only [cleanStep, hp]
      rw [if_neg hr]

theorem dedupFirst_cons (x : ℤ) (xs : List ℤ) :
    dedupFirst (x :: xs) = x :: dedupFirst (xs.filter (fun y => y != x)) := by
  rw [dedupFirst.eq_def]

theorem cleanStep_foldl (l : List PyVal) (acc : List ℤ) :
    List.foldl cleanStep acc l =
      acc ++ dedupFirst ((l.filterMap validVal).filter (fun n => !decide (n ∈ acc))) := by
  induction l generalizing acc with
  | nil => simp [dedupFirst]
  | cons v l ih =>
    simp only [List.foldl_cons, List.filterMap_cons]
    cases hv : validVal v with
    | none =>
      rw [validVal_eq_none acc hv]
      exact ih acc
    | some n =>
      obtain ⟨hp, hr⟩ := validVal_eq_some hv
      have hstep : cleanStep acc v = if n ∈ acc then acc else acc ++ [n] := by
        simp only [cleanStep, hp]
        rw [if_pos hr]
      by_cases hmem : n ∈ acc
      · rw [hstep, if_pos hmem]
        have hfil : (List.filter (fun x => !decide (x ∈ acc)) (n :: l.filterMap validVal)) =
            List.filter (fun x => !decide (x ∈ acc)) (l.filterMap validVal) := by
          simp [List.filter_cons, hmem]
        rw [hfil]
        exact ih acc
      · rw [hstep, if_neg hmem]
        have hfil : (List.filter (fun x => !decide (x ∈ acc)) (n :: l.filterMap validVal)) =
            n :: List.filter (fun x => !decide (x ∈ acc)) (l.filterMap validVal) := by
          simp [List.filter_cons, hmem]
        rw [hfil, ih (acc ++ [n]), dedupFirst_cons]
        have hpt : ∀ x ∈ (l.filterMap validVal),
            (!decide (x ∈ acc ++ [n])) = ((x != n) && !decide (x ∈ acc)) := by
          intro x _
          by_cases h1 : x ∈ acc <;> by_cases h2 : x = n <;>
            simp [h1, h2, List.mem_append]
        rw [List.filter_congr hpt, ← List.filter_filter]
        simp [List.append_assoc]

theorem cleanDeck_eq_spec (l : List PyVal) :
    cleanDeck l = dedupFirst (l.filterMap validVal) := by
  unfold cleanDeck
  rw [cleanStep_foldl]
  simp

/-- **C4** — Deck normalization.  For every raw deck list supplied to the
deck block of `join`: a size outside [2,20] keeps the current deck;
otherwise each element is coerced to an integer (`validVal`), wrong-typed
or out-of-[1,1000] elements are discarded, duplicates are removed keeping
the first occurrence (`dedupFirst`), and the result replaces the deck only
when at least 2 valid values remain, the current (default) deck being
retained otherwise; a non-list payload keeps the current deck; and the
concrete input `[1, 1, 2, "x", 3, 5, 1001]` normalizes to `[1, 2, 3, 5]`. -/
theorem C4_deck_normalization :
    (∀ (l : List PyVal) (current : List ℤ),
        ¬ (2 ≤ l.length ∧ l.length ≤ 20) → applyDeck (some l) current = current) ∧
    (∀ l : List PyVal, cleanDeck l = dedupFirst (l.filterMap validVal)) ∧
    (∀ (l : List PyVal) (current : List ℤ), 2 ≤ l.length → l.length ≤ 20 →
        2 ≤ (cleanDeck l).length → applyDeck (some l) current = cleanDeck l) ∧
    (∀ (l : List PyVal) (current : List ℤ), 2 ≤ l.length → l.length ≤ 20 →
        (cleanDeck l).length < 2 → applyDeck (some l) current = current) ∧
    (∀ current : List ℤ, applyDeck none current = current) ∧
    applyDeck (some [PyVal.vint 1, PyVal.vint 1, PyVal.vint 2, PyVal.vstr "x",
        PyVal.vint 3, PyVal.vint 5, PyVal.vint 1001]) DEFAULT_DECK = [1, 2, 3, 5] := by
  refine ⟨?_, cleanDeck_eq_spec, ?_, ?_, fun _ => rfl, by decide⟩
  · intro l current h
    simp only [applyDeck]
    rw [if_pos h]
  · intro l current h1 h2 h3
    have hne : cleanDeck l ≠ [] := by
      intro hnil
      rw [hnil] at h3
      simp at h3
    simp only [applyDeck]
    rw [if_neg (not_not_intro ⟨h1, h2⟩), if_pos ⟨hne, h3⟩]
  · intro l current h1 h2 h3
    simp only [applyDeck]
    rw [if_neg (not_not_intro ⟨h1, h2⟩),
        if_neg (fun hc : _ ∧ _ => by omega)]

theorem C4_deck_normalization_witness :
    applyDeck (some [PyVal.vint 1]) DEFAULT_DECK = DEFAULT_DECK ∧
    applyDeck (some [PyVal.vint 7, PyVal.vint 9, PyVal.vint 7]) DEFAULT_DECK =
      cleanDeck [PyVal.vint 7, PyVal.vint 9, PyVal.vint 7] ∧
    applyDeck (some [PyVal.vstr "x", PyVal.vstr "y"]) DEFAULT_DECK = DEFAULT_DECK :=
  ⟨C4_deck_normalization.1 _ DEFAULT_DECK (by decide),
   C4_deck_normalization.2.2.1 _ DEFAULT_DECK (by decide) (by decide) (by decide),
   C4_deck_normalization.2.2.2.1 _ DEFAULT_DECK (by decide) (by decide) (by decide)⟩

/-- **C9** — Rate limiter.  For every actor's (socket, action) ledger cell,
budget `limit` and `window`: the check first prunes entries at least
`window` old, allows iff the remaining count is strictly below `limit`,
appends the current instant exactly when allowed and records nothing when
denied; with budget (5, 60 s), a 6th action 59 s after the first five is
denied, and an action once 60 s have elapsed since the 1st is allowed. -/
theorem C9_rate_limiter :
    (∀ (now window : ℤ) (limit : ℕ) (entries : List ℤ),
      ((check_socket_rate_limit now limit window entries).allowed = true ↔
        (entries.filter (fun t => now - t < window)).length < limit) ∧
      ((check_socket_rate_limit now limit window entries).allowed = true →
        (check_socket_rate_limit now limit window entries).entries =
          entries.filter (fun t => now - t < window) ++ [now]) ∧
      ((check_socket_rate_limit now limit window entries).allowed = false →
        (check_socket_rate_limit now limit window entries).entries =
          entries.filter (fun t => now - t < window))) ∧
    (check_socket_rate_limit 59 5 60 [0, 1, 2, 3, 4]).allowed = false ∧
    (check_socket_rate_limit 60 5 60 [0, 1, 2, 3, 4]).allowed = true := by
  refine ⟨?_, by decide, by decide⟩
  intro now window limit entries
  unfold check_socket_rate_limit
  by_cases h : limit ≤ (entries.filter (fun t => now - t < window)).length
  · rw [if_pos h]
    exact ⟨⟨fun hh => by simp at hh, fun hh => absurd h (by omega)⟩,
           fun hh => by simp at hh, fun _ => rfl⟩
  · rw [if_neg h]
    exact ⟨⟨fun _ => by omega, fun _ => rfl⟩, fun _ => rfl, fun hh => by simp at hh⟩

theorem C9_rate_limiter_witness :
    ((check_socket_rate_limit 50 5 60 [0, 10, 20, 30, 40]).allowed = true ↔
      (([0, 10, 20, 30, 40] : List ℤ).filter (fun t => (50 : ℤ) - t < 60)).length < 5) ∧
    (check_socket_rate_limit 60 5 60 [0, 1, 2, 3, 4]).entries =
      ([0, 1, 2, 3, 4] : List ℤ).filter (fun t => (60 : ℤ) - t < 60) ++ [60] :=
  ⟨(C9_rate_limiter.1 50 60 5 [0, 10, 20, 30, 40]).1,
   (C9_rate_limiter.1 60 60 5 [0, 1, 2, 3, 4]).2.1 (by decide)⟩

/-! ## Claim C3: reveal statistics -/

/-- Test fixture: a member row for a (username, numeric vote) pair drawn
from the deck. -/
def mkVoter (p : String × ℤ) : String × User :=
  (p.1, ⟨p.1, some (PyVal.vint p.2), false, p.1, none⟩)

theorem voted_of_mkVoter (deck : List ℤ) (vs : List (String × ℤ))
    (h : ∀ p ∈ vs, p.2 ∈ deck) : voted_of deck (vs.map mkVoter) = vs := by
  induction vs with
  | nil => rfl
  | cons p rest ih =>
    obtain ⟨name, v⟩ := p
    have hv : v ∈ deck := h (name, v) (List.mem_cons_self _ _)
    have hrest : ∀ q ∈ rest, q.2 ∈ deck := fun q hq => h q (List.mem_cons_of_mem _ hq)
    have hstep : voted_of deck (((name, v) :: rest).map mkVoter) =
        (name, v) :: voted_of deck (rest.map mkVoter) := by
      simp [voted_of, mkVoter, pyNum, hv]
    rw [hstep, ih hrest]

/-- Integer-valued rationals round to themselves. -/
theorem pyRound2_intCast (z : ℤ) : pyRound2 (z : ℚ) = (z : ℚ) := by
  have h1 : ((z : ℚ) * 100) = ((100 * z : ℤ) : ℚ) := by push_cast; ring
  simp only [pyRound2, h1, Int.floor_intCast, sub_self]
  rw [if_pos (by norm_num : (0 : ℚ) < 1/2)]
  rw [div_eq_iff (by norm_num : (100 : ℚ) ≠ 0)]
  push_cast
  ring

/-- **C3** — Reveal statistics.  For every duplicate-free deck and every
non-empty list of (username, numeric vote) pairs drawn from the deck:
average = arithmetic mean of the vote values rounded to two decimals,
median = the deck value at index `count / 2` (zero-based) of the sorted
list of the voters' deck ranks, reported as a deck value, and outliers =
exactly the usernames whose rank distance from the median rank is ≥ 2.
With zero qualifying voters all three fields are absent.  On deck
[1,2,3,5,8,13,21]: voters 1,2,3 give average 2, median 2, no outliers;
voters 1,21 give the even-count rule median (deck rank at index 1 of the
sorted ranks, i.e. 21) with the opposite extreme's voter as outlier. -/
theorem C3_reveal_statistics :
    (∀ (deck : List ℤ) (vs : List (String × ℤ)),
      deck.Nodup → (∀ p ∈ vs, p.2 ∈ deck) → vs ≠ [] →
      compute_stats deck (vs.map mkVoter) =
        ⟨some (pyRound2 ((vs.map (fun p => (p.2 : ℚ))).sum / (vs.length : ℚ))),
         some (deck.getD ((isort (vs.map (fun p => deck.indexOf p.2))).getD (vs.length / 2) 0) 0),
         some ((vs.filter (fun p => decide (2 ≤ ((deck.indexOf p.2 : ℤ) -
             (((isort (vs.map (fun q => deck.indexOf q.2))).getD (vs.length / 2) 0 : ℕ) : ℤ)).natAbs))).map
           (fun p => p.1))⟩) ∧
    (∀ (deck : List ℤ) (users : List (String × User)),
      voted_of deck users = [] → compute_stats deck users = ⟨none, none, none⟩) ∧
    compute_stats DEFAULT_DECK ([("a", 1), ("b", 2), ("c", 3)].map mkVoter) =
      ⟨some 2, some 2, some []⟩ ∧
    compute_stats DEFAULT_DECK ([("a", 1), ("b", 21)].map mkVoter) =
      ⟨some 11, some 21, some ["a"]⟩ := by
  have hgen : ∀ (deck : List ℤ) (vs : List (String × ℤ)),
      (∀ p ∈ vs, p.2 ∈ deck) → vs ≠ [] →
      compute_stats deck (vs.map mkVoter) =
        ⟨some (pyRound2 ((vs.map (fun p => (p.2 : ℚ))).sum / (vs.length : ℚ))),
         some (deck.getD ((isort (vs.map (fun p => deck.indexOf p.2))).getD (vs.length / 2) 0) 0),
         some ((vs.filter (fun p => decide (2 ≤ ((deck.indexOf p.2 : ℤ) -
             (((isort (vs.map (fun q => deck.indexOf q.2))).getD (vs.length / 2) 0 : ℕ) : ℤ)).natAbs))).map
           (fun p => p.1))⟩ := by
    intro deck vs h hne
    have hv := voted_of_mkVoter deck vs h
    simp only [compute_stats, hv]
    cases vs with
    | nil => exact absurd rfl hne
    | cons p rest => rfl
  refine ⟨fun deck vs _ h hne => hgen deck vs h hne, ?_, ?_, ?_⟩
  · intro deck users h
    simp only [compute_stats, h]
    rfl
  · rw [hgen DEFAULT_DECK [("a", 1), ("b", 2), ("c", 3)] (by decide) (by decide)]
    rw [VoteStats.mk.injEq]
    refine ⟨?_, by decide, by decide⟩
    have : ((([("a", (1:ℤ)), ("b", 2), ("c", 3)].map (fun p => (p.2 : ℚ))).sum) /
        (([("a", (1:ℤ)), ("b", 2), ("c", 3)].length : ℚ))) = ((2 : ℤ) : ℚ) := by
      norm_num
    rw [this, pyRound2_intCast]
    norm_num
  · rw [hgen DEFAULT_DECK [("a", 1), ("b", 21)] (by decide) (by decide)]
    rw [VoteStats.mk.injEq]
    refine ⟨?_, by decide, by decide⟩
    have : ((([("a", (1:ℤ)), ("b", 21)].map (fun p => (p.2 : ℚ))).sum) /
        (([("a", (1:ℤ)), ("b", 21)].length : ℚ))) = ((11 : ℤ) : ℚ) := by
      norm_num
    rw [this, pyRound2_intCast]
    norm_num

theorem C3_reveal_statistics_witness :
    compute_stats DEFAULT_DECK [] = ⟨none, none, none⟩ :=
  C3_reveal_statistics.2.1 DEFAULT_DECK [] rfl

/-! ## Vote handler lemmas -/

theorem voteH_of_phase1_none {sid : String} {d : VoteData} {rlOk : Bool}
    {S S' : Sessions} {E : List Emit}
    (h : votePhase1 sid d rlOk S = ⟨S', E, none⟩) :
    voteH sid d rlOk S = ⟨S', E, false⟩ := by
  unfold voteH
  rw [h]

/-- A valid vote (abstain marker, or numeric with in-deck truncation) from
a present member: the synchronous part records the raw value, emits the
membership update and snapshots `all_voted`. -/
theorem votePhase1_accepted (sid : String) (d : VoteData) (S : Sessions)
    (sidStr : String) (sess : Session) (u : User)
    (hd : d.isDict = true) (hs : d.sessionId = PyVal.vstr sidStr)
    (hok : sessionIdOk sidStr = true) (hlk : alookup sidStr S = some sess)
    (hu : alookup sid sess.users = some u)
    (hval : d.value = PyVal.vstr "?" ∨ ∃ n, pyNum d.value = some n ∧ n ∈ sess.deck) :
    votePhase1 sid d true S =
      ⟨dictSet sidStr { sess with
          users := dictSet sid { u with vote := some d.value } sess.users } S,
       [Emit.usersUpdate (dictSet sid { u with vote := some d.value } sess.users) sidStr],
       some (sidStr, allVotedCheck (effectiveVoters
          (dictSet sid { u with vote := some d.value } sess.users)))⟩ := by
  rcases hval with habst | ⟨n, hn, hmem⟩
  · simp [votePhase1, getStrV, hd, hs, hok, hlk, hu, habst, pyNum]
  · have hne2 : (d.value == PyVal.vstr "?") = false := by
      rw [beq_eq_false_iff_ne]
      intro heq
      rw [heq] at hn
      simp [pyNum] at hn
    simp [votePhase1, getStrV, hd, hs, hok, hlk, hu, hn, hne2, hmem]

/-! ## Claim C2: invalid vote values -/

/-- A shared concrete fixture: one session, one joined member. -/
def sessId : String := "ABCDEFGHIJKLMNOP"
def aliceU : User := ⟨"Alice", none, true, "clientAAA", none⟩
def aliceSess : Session := ⟨[("sockA", aliceU)], false, some "clientAAA", 0, 7, DEFAULT_DECK⟩
def aliceS : Sessions := [(sessId, aliceSess)]

theorem pyNum_halffive : pyNum (PyVal.vfloat (5/2)) = some 2 := by
  have hfl : (⌊(5/2 : ℚ)⌋ : ℤ) = 2 := Int.floor_eq_iff.mpr (by norm_num)
  simp only [pyNum, pytrunc]
  rw [if_pos (by norm_num : (0 : ℚ) ≤ 5/2), hfl]

/-- **C2 counterexample** — the claim fails on the code.  The float `2.5`
is neither the abstain marker nor an integer present in the deck
`[1,2,3,5,8,13,21]`, yet the handler accepts it (Python truncates it with
`int(2.5) = 2`, which is in the deck) and stores the raw `2.5` as Alice's
vote; likewise the boolean `True` (a subclass of `int` in Python,
`int(True) = 1 ∈ deck`) is accepted and stored. -/
theorem C2_counterexample :
    (voteH "sockA" ⟨true, PyVal.vstr sessId, PyVal.vfloat (5/2)⟩ true aliceS).sessions =
      [(sessId, { aliceSess with
          users := [("sockA", { aliceU with vote := some (PyVal.vfloat (5/2)) })],
          revealed := true })] ∧
    (voteH "sockA" ⟨true, PyVal.vstr sessId, PyVal.vbool true⟩ true aliceS).sessions =
      [(sessId, { aliceSess with
          users := [("sockA", { aliceU with vote := some (PyVal.vbool true) })],
          revealed := true })] := by
  constructor
  · have h1 := votePhase1_accepted "sockA" ⟨true, PyVal.vstr sessId, PyVal.vfloat (5/2)⟩
      aliceS sessId aliceSess aliceU rfl rfl (by decide) rfl rfl
      (Or.inr ⟨2, pyNum_halffive, by decide⟩)
    unfold voteH
    rw [h1]
    rfl
  · have h1 := votePhase1_accepted "sockA" ⟨true, PyVal.vstr sessId, PyVal.vbool true⟩
      aliceS sessId aliceSess aliceU rfl rfl (by decide) rfl rfl
      (Or.inr ⟨1, by decide, by decide⟩)
    unfold voteH
    rw [h1]
    rfl

/-- **C2 (amended)** — A vote whose value is neither the abstain marker
`"?"` nor a numeric value (int, float or bool) whose `int(...)` truncation
lies in the session's deck is silently dropped: no session state changes,
nothing is emitted, no countdown is spawned.  (The original claim — that
every value other than `"?"` or an *integer present in the deck* is
dropped — fails: floats and bools whose truncation hits the deck are
accepted and stored raw, see the counterexample.) -/
theorem C2_amended_invalid_vote_dropped (sid : String) (d : VoteData) (rlOk : Bool)
    (S : Sessions) (sidStr : String) (sess : Session)
    (hs : d.sessionId = PyVal.vstr sidStr) (hlk : alookup sidStr S = some sess)
    (hnq : d.value ≠ PyVal.vstr "?")
    (hnotin : ∀ n, pyNum d.value = some n → n ∉ sess.deck) :
    voteH sid d rlOk S = ⟨S, [], false⟩ := by
  apply voteH_of_phase1_none
  cases hrl : rlOk with
  | false => simp [votePhase1]
  | true =>
    cases hd : d.isDict with
    | false => simp [votePhase1, hd]
    | true =>
      cases hok : sessionIdOk sidStr with
      | false => simp [votePhase1, getStrV, hd, hs, hok]
      | true =>
        have hne2 : (d.value == PyVal.vstr "?") = false := beq_eq_false_iff_ne.mpr hnq
        cases hpn : pyNum d.value with
        | none => simp [votePhase1, getStrV, hd, hs, hok, hlk, hpn, hne2]
        | some n =>
          have hni : ¬ (n ∈ sess.deck) := hnotin n hpn
          simp [votePhase1, getStrV, hd, hs, hok, hlk, hpn, hne2, hni]

theorem C2_amended_witness :
    voteH "sockA" ⟨true, PyVal.vstr sessId, PyVal.vint 4⟩ true aliceS =
      ⟨aliceS, [], false⟩ :=
  C2_amended_invalid_vote_dropped "sockA" _ true aliceS sessId aliceSess rfl rfl
    (by decide)
    (fun n hn => by injection hn with h; subst h; decide)

/-! ## Claim C6: effect of a valid vote -/

/-- **C6 counterexample** — the claim fails on the code: a valid in-deck
vote from a joined member is recorded and broadcast, but the session's
`lastActivity` timestamp is **not** updated (the `vote` handler never
touches `lastActivity`; only `join` does — the handler does not even read
a clock).  Here `lastActivity` stays at its old value `7`. -/
theorem C6_counterexample :
    (voteH "sockA" ⟨true, PyVal.vstr sessId, PyVal.vint 5⟩ true aliceS).sessions =
      [(sessId, { aliceSess with
          users := [("sockA", { aliceU with vote := some (PyVal.vint 5) })],
          revealed := true })] ∧
    (voteH "sockA" ⟨true, PyVal.vstr sessId, PyVal.vint 5⟩ true aliceS).emits =
      [Emit.usersUpdate [("sockA", { aliceU with vote := some (PyVal.vint 5) })] sessId] ∧
    ({ aliceSess with
        users := [("sockA", { aliceU with vote := some (PyVal.vint 5) })],
        revealed := true } : Session).lastActivity = 7 ∧
    aliceSess.lastActivity = 7 := by
  exact ⟨by rfl, by rfl, rfl, rfl⟩

/-- **C6 (amended)** — On a valid vote (abstain marker or deck value) from
a connection that is a member of the session, the member's raw vote value
is recorded and an updated membership broadcast is emitted to the room;
the session's `lastActivity` is left unchanged (the original claim's
"lastActivity is updated" part fails, see the counterexample). -/
theorem C6_amended_valid_vote (sid : String) (d : VoteData) (S : Sessions)
    (sidStr : String) (sess : Session) (u : User)
    (hd : d.isDict = true) (hs : d.sessionId = PyVal.vstr sidStr)
    (hok : sessionIdOk sidStr = true) (hlk : alookup sidStr S = some sess)
    (hu : alookup sid sess.users = some u)
    (hval : d.value = PyVal.vstr "?" ∨ ∃ n, pyNum d.value = some n ∧ n ∈ sess.deck) :
    ∃ sess', alookup sidStr (voteH sid d true S).sessions = some sess' ∧
      alookup sid sess'.users = some { u with vote := some d.value } ∧
      sess'.lastActivity = sess.lastActivity ∧
      Emit.usersUpdate (dictSet sid { u with vote := some d.value } sess.users) sidStr ∈
        (voteH sid d true S).emits := by
  have h1 := votePhase1_accepted sid d S sidStr sess u hd hs hok hlk hu hval
  unfold voteH
  rw [h1]
  have hlk' : alookup sidStr (dictSet sidStr
      { sess with users := dictSet sid { u with vote := some d.value } sess.users } S) =
      some { sess with users := dictSet sid { u with vote := some d.value } sess.users } := by
    rw [alookup_dictSet, if_pos rfl]
  simp only [votePhase2, hlk']
  by_cases hsp : (allVotedCheck (effectiveVoters
      (dictSet sid { u with vote := some d.value } sess.users)) &&
      !({ sess with users := dictSet sid { u with vote := some d.value } sess.users}).revealed) = true
  · rw [if_pos hsp]
    refine ⟨{ sess with
        users := dictSet sid { u with vote := some d.value } sess.users,
        revealed := true }, ?_, ?_, rfl, ?_⟩
    · rw [alookup_dictSet, if_pos rfl]
    · rw [alookup_dictSet, if_pos rfl]
    · simp
  · rw [if_neg hsp]
    refine ⟨{ sess with
        users := dictSet sid { u with vote := some d.value } sess.users }, hlk', ?_, rfl, ?_⟩
    · rw [alookup_dictSet, if_pos rfl]
    · simp

theorem C6_amended_witness :
    ∃ sess', alookup sessId
        (voteH "sockA" ⟨true, PyVal.vstr sessId, PyVal.vint 3⟩ true aliceS).sessions =
        some sess' ∧
      alookup "sockA" sess'.users = some { aliceU with vote := some (PyVal.vint 3) } ∧
      sess'.lastActivity = aliceSess.lastActivity ∧
      Emit.usersUpdate (dictSet "sockA" { aliceU with vote := some (PyVal.vint 3) }
          aliceSess.users) sessId ∈
        (voteH "sockA" ⟨true, PyVal.vstr sessId, PyVal.vint 3⟩ true aliceS).emits :=
  C6_amended_valid_vote "sockA" _ aliceS sessId aliceSess aliceU rfl rfl (by decide) rfl rfl
    (Or.inr ⟨3, rfl, by decide⟩)

/-! ## Claim C5: requestNewRound -/

/-- A second concrete fixture: a session whose sole member is the host. -/
def hostU : User := ⟨"Bob", none, true, "clientBBB", none⟩
def hostSess : Session := ⟨[("sockB", hostU)], false, some "clientBBB", 0, 0, DEFAULT_DECK⟩
def hostS : Sessions := [(sessId, hostSess)]
def newSessId : String := "QRSTUVWXYZabcde0"

/-- **C5** — New round.  For a `requestNewRound` issued by the current
host of an existing session, with a fresh random id: afterwards the old
session id no longer resolves, the fresh id resolves to a session with the
old session's `hostClientId` and `deck`, empty membership, `revealed =
false` and both timestamps set to the current instant; and the trace is
exactly the redirect broadcast to the old session's room (carrying the new
url and the per-connection username and wantsToVote maps) followed by the
deletion of the old session. -/
theorem C5_new_round (nowUtc : ℤ) (sid sidStr newId : String) (S : Sessions)
    (old : Session) (u : User)
    (hok : sessionIdOk sidStr = true) (hlk : alookup sidStr S = some old)
    (hu : alookup sid old.users = some u) (hh : u.isHost = true)
    (hfresh : alookup newId S = none) :
    alookup sidStr (requestNewRoundH nowUtc sid ⟨true, PyVal.vstr sidStr⟩ true
        newId S).sessions = none ∧
    alookup newId (requestNewRoundH nowUtc sid ⟨true, PyVal.vstr sidStr⟩ true
        newId S).sessions =
      some ⟨[], false, old.hostClientId, nowUtc, nowUtc, old.deck⟩ ∧
    (requestNewRoundH nowUtc sid ⟨true, PyVal.vstr sidStr⟩ true newId S).trace =
      [NRAction.emitA (Emit.redirectToNewSession ("/session/" ++ newId)
          (old.users.map (fun q => (q.1, q.2.username)))
          (old.users.map (fun q => (q.1, q.2.wantsToVote))) sidStr),
        NRAction.deleteA sidStr] := by
  have hne : newId ≠ sidStr := by
    intro h
    rw [h, hlk] at hfresh
    cases hfresh
  have hr : requestNewRoundH nowUtc sid ⟨true, PyVal.vstr sidStr⟩ true newId S =
      ⟨adelete sidStr (dictSet newId ⟨[], false, old.hostClientId, nowUtc, nowUtc, old.deck⟩ S),
       [NRAction.emitA (Emit.redirectToNewSession ("/session/" ++ newId)
          (old.users.map (fun q => (q.1, q.2.username)))
          (old.users.map (fun q => (q.1, q.2.wantsToVote))) sidStr),
        NRAction.deleteA sidStr]⟩ := by
    simp [requestNewRoundH, getStrV, hok, hlk, hu, hh]
  rw [hr]
  refine ⟨alookup_adelete_self _ _, ?_, rfl⟩
  rw [alookup_adelete_ne _ _ _ hne, alookup_dictSet, if_pos rfl]

theorem C5_new_round_witness :
    alookup sessId (requestNewRoundH 100 "sockB" ⟨true, PyVal.vstr sessId⟩ true
        newSessId hostS).sessions = none ∧
    alookup newSessId (requestNewRoundH 100 "sockB" ⟨true, PyVal.vstr sessId⟩ true
        newSessId hostS).sessions =
      some ⟨[], false, hostSess.hostClientId, 100, 100, hostSess.deck⟩ ∧
    (requestNewRoundH 100 "sockB" ⟨true, PyVal.vstr sessId⟩ true newSessId hostS).trace =
      [NRAction.emitA (Emit.redirectToNewSession ("/session/" ++ newSessId)
          (hostSess.users.map (fun q => (q.1, q.2.username)))
          (hostSess.users.map (fun q => (q.1, q.2.wantsToVote))) sessId),
        NRAction.deleteA sessId] :=
  C5_new_round 100 "sockB" sessId newSessId hostS hostSess hostU
    (by decide) rfl rfl rfl rfl

/-! ## Claim C8: countdown on a deleted session -/

/-- **C8** — The countdown task does **not** guard against a deleted
session: its post-sleep body subscripts `sessions[session_id]` directly
(server.py line 603), so when the session has been deleted while the task
slept — here by the host's `requestNewRound`, which deletes the old id —
the lookup raises `KeyError` and the task faults instead of completing
harmlessly.  (First conjunct: every deleted/unknown id faults; second:
the concrete new-round scenario.) -/
theorem C8_countdown_keyerror :
    (∀ (S : Sessions) (id : String), alookup id S = none →
        countdown_finish S id = Except.error "KeyError") ∧
    countdown_finish (requestNewRoundH 100 "sockB" ⟨true, PyVal.vstr sessId⟩ true
        newSessId hostS).sessions sessId = Except.error "KeyError" := by
  constructor
  · intro S id h
    unfold countdown_finish
    rw [h]
  · rfl

theorem C8_countdown_keyerror_witness :
    countdown_finish [] sessId = Except.error "KeyError" :=
  C8_countdown_keyerror.1 [] sessId rfl

/-! ## Session invariants (claims C7 and C10) -/

/-- Per-session invariant: a session with no host has no members (members
are only ever added by a successful `join`, whose first action on a
host-less session is to set the host), and every member's stored `isHost`
flag agrees with the comparison of its durable client id against the
session's `hostClientId`. -/
def SInv (sess : Session) : Prop :=
  (sess.hostClientId = none → sess.users = []) ∧
  ∀ q ∈ sess.users, (q.2.isHost = true ↔ sess.hostClientId = some q.2.clientId)

def SessInv (S : Sessions) : Prop := ∀ p ∈ S, SInv p.2

/-- The rate gate when the pruned cell is under budget. -/
theorem rl_allowed_of_lt (now : ℤ) (limit : ℕ) (window : ℤ) (entries : List ℤ)
    (h : (entries.filter (fun t => now - t < window)).length < limit) :
    check_socket_rate_limit now limit window entries =
      ⟨true, entries.filter (fun t => now - t < window) ++ [now]⟩ := by
  unfold check_socket_rate_limit
  rw [if_neg (by omega)]

/-- On every path, `join` stores back the pruned (and, when allowed,
extended) ledger cell — budget is consumed even when the join later
fails. -/
theorem joinH_ledger (now nowUtc : ℤ) (sid : String) (d : JoinData)
    (ledger : List ℤ) (lastJoin : List (String × ℤ)) (S : Sessions) :
    (joinH now nowUtc sid d ledger lastJoin S).ledger =
      (check_socket_rate_limit now 5 60 ledger).entries := by
  unfold joinH
  split
  all_goals rfl

theorem joinCore3_lastJoin (nowUtc : ℤ) (sid sidStr cid uname : String)
    (dp : Option (List PyVal)) (w : Option PyVal) (lj : List (String × ℤ))
    (S : Sessions) (sess : Session) :
    (joinCore3 nowUtc sid sidStr cid uname dp w lj S sess).lastJoin = lj := by
  simp only [joinCore3]
  repeat' split
  all_goals rfl

theorem joinCore2_lastJoin (nowUtc : ℤ) (sid sidStr cid : String) (d : JoinData)
    (lj : List (String × ℤ)) (S : Sessions) :
    (joinCore2 nowUtc sid sidStr cid d lj S).lastJoin = lj := by
  unfold joinCore2 joinFailC
  repeat' split
  all_goals first | rfl | apply joinCore3_lastJoin

/-- When the gate and format checks pass and an address is carried, the
per-address cooldown stamp is overwritten before the session is looked up:
it reads back as `now` regardless of how the rest of the join fares. -/
theorem joinH_ip_stamped (now nowUtc : ℤ) (sid : String) (d : JoinData)
    (ledger : List ℤ) (lastJoin : List (String × ℤ)) (S : Sessions)
    (a sidStr cid : String)
    (hlt : (ledger.filter (fun t => now - t < 60)).length < 5)
    (hd : d.isDict = true)
    (hs : d.sessionId = PyVal.vstr sidStr) (hok : sessionIdOk sidStr = true)
    (hc : d.clientId = PyVal.vstr cid) (hcok : clientIdOk cid = true)
    (hip : d.ip = some a) (hcool : cooldownHit now lastJoin d.ip = false) :
    alookup a (joinH now nowUtc sid d ledger lastJoin S).lastJoin = some now := by
  have hrl := rl_allowed_of_lt now 5 60 ledger hlt
  rw [hip] at hcool
  simp [joinH, joinCore, getStrV, hrl, hd, hs, hok, hc, hcok, hcool, hip,
    joinCore2_lastJoin, alookup_dictSet]

theorem joinCore3_no_mutation (nowUtc : ℤ) (sid sidStr cid uname : String)
    (dp : Option (List PyVal)) (w : Option PyVal) (lj : List (String × ℤ))
    (S : Sessions) (sess : Session)
    (hlk : alookup sidStr S = some sess) (hsi : SInv sess) :
    (joinCore3 nowUtc sid sidStr cid uname dp w lj S sess).joined = true ∨
    (joinCore3 nowUtc sid sidStr cid uname dp w lj S sess).sessions = S := by
  by_cases hnone : sess.hostClientId = none
  · left
    have hu : sess.users = [] := hsi.1 hnone
    simp [joinCore3, hnone, hu]
  · by_cases hdup : (sess.users.any (fun q => q.2.clientId == cid)) = true
    · right
      simp only [joinCore3, hnone, if_false, if_neg hnone]
      rw [if_pos hdup]
      exact dictSet_self _ _ _ hlk
    · left
      simp only [joinCore3, hnone, if_false, if_neg hnone]
      rw [if_neg hdup]

theorem joinCore2_no_mutation (nowUtc : ℤ) (sid sidStr cid : String) (d : JoinData)
    (lj : List (String × ℤ)) (S : Sessions) (hInv : SessInv S) :
    (joinCore2 nowUtc sid sidStr cid d lj S).joined = true ∨
    (joinCore2 nowUtc sid sidStr cid d lj S).sessions = S := by
  unfold joinCore2
  split
  next hnone => right; rfl
  next sess hlk =>
    have hsi : SInv sess := hInv (sidStr, sess) (alookup_mem _ _ _ hlk)
    split
    · right; rfl
    · split
      next => right; rfl
      next uname hun =>
        split
        · right; rfl
        · exact joinCore3_no_mutation nowUtc sid sidStr cid uname d.deck d.wantsToVote
            lj S sess hlk hsi

theorem joinCore_no_mutation (now nowUtc : ℤ) (sid : String) (d : JoinData)
    (lastJoin : List (String × ℤ)) (S : Sessions) (hInv : SessInv S) :
    (joinCore now nowUtc sid d lastJoin S).joined = true ∨
    (joinCore now nowUtc sid d lastJoin S).sessions = S := by
  unfold joinCore
  split
  · right; rfl
  · split
    next => right; rfl
    next sidStr hsid =>
      split
      · right; rfl
      · split
        next => right; rfl
        next cid hcid =>
          split
          · right; rfl
          · split
            · right; rfl
            · exact joinCore2_no_mutation nowUtc sid sidStr cid d _ S hInv

theorem joinH_no_mutation (now nowUtc : ℤ) (sid : String) (d : JoinData)
    (ledger : List ℤ) (lastJoin : List (String × ℤ)) (S : Sessions)
    (hInv : SessInv S) :
    (joinH now nowUtc sid d ledger lastJoin S).joined = true ∨
    (joinH now nowUtc sid d ledger lastJoin S).sessions = S := by
  unfold joinH
  by_cases hrl : (check_socket_rate_limit now 5 60 ledger).allowed = false
  · right; rw [if_pos hrl]
  · rw [if_neg hrl]
    exact joinCore_no_mutation now nowUtc sid d lastJoin S hInv

/-- **C10** — Join side effects on failure.  A join that passes the
per-connection rate gate consumes budget (the pruned ledger cell is
extended by the current instant) even when the join subsequently fails;
when the payload carries a source address and the cooldown passes, the
per-address stamp is overwritten before the session is even looked up (it
reads back as `now` no matter how the rest fares, including session not
found); and every failed join leaves the whole session table — hence the
target session's users, deck, hostClientId, revealed and lastActivity —
unchanged (given the reachable-state invariant `SessInv`: the
duplicate-client failure path writes the session back, but on such a path
the host was already set, so the write-back is the identity). -/
theorem C10_join_side_effects (now nowUtc : ℤ) (sid : String) (d : JoinData)
    (ledger : List ℤ) (lastJoin : List (String × ℤ)) (S : Sessions) :
    ((ledger.filter (fun t => now - t < 60)).length < 5 →
      (joinH now nowUtc sid d ledger lastJoin S).ledger =
        ledger.filter (fun t => now - t < 60) ++ [now]) ∧
    (∀ a sidStr cid, (ledger.filter (fun t => now - t < 60)).length < 5 →
      d.isDict = true → d.sessionId = PyVal.vstr sidStr → sessionIdOk sidStr = true →
      d.clientId = PyVal.vstr cid → clientIdOk cid = true →
      d.ip = some a → cooldownHit now lastJoin d.ip = false →
      alookup a (joinH now nowUtc sid d ledger lastJoin S).lastJoin = some now) ∧
    (SessInv S → (joinH now nowUtc sid d ledger lastJoin S).joined = false →
      (joinH now nowUtc sid d ledger lastJoin S).sessions = S) := by
  refine ⟨?_, ?_, ?_⟩
  · intro hlt
    rw [joinH_ledger, rl_allowed_of_lt now 5 60 ledger hlt]
  · intro a sidStr cid hlt hd hs hok hc hcok hip hcool
    exact joinH_ip_stamped now nowUtc sid d ledger lastJoin S a sidStr cid
      hlt hd hs hok hc hcok hip hcool
  · intro hInv hfail
    rcases joinH_no_mutation now nowUtc sid d ledger lastJoin S hInv with h | h
    · rw [hfail] at h
      cases h
    · exact h

theorem C10_join_side_effects_witness :
    (joinH 50 100 "sockB"
        ⟨true, none, PyVal.vstr "clientAAA", some "ipONE", PyVal.vstr sessId, none,
         PyVal.vstr "Carol"⟩ [] [] aliceS).ledger =
      List.filter (fun t => decide ((50 : ℤ) - t < 60)) [] ++ [50] ∧
    alookup "ipONE" (joinH 50 100 "sockB"
        ⟨true, none, PyVal.vstr "clientAAA", some "ipONE", PyVal.vstr sessId, none,
         PyVal.vstr "Carol"⟩ [] [] aliceS).lastJoin = some 50 ∧
    (joinH 50 100 "sockB"
        ⟨true, none, PyVal.vstr "clientAAA", some "ipONE", PyVal.vstr sessId, none,
         PyVal.vstr "Carol"⟩ [] [] aliceS).sessions = aliceS :=
  ⟨(C10_join_side_effects 50 100 "sockB" _ [] [] aliceS).1 (by decide),
   (C10_join_side_effects 50 100 "sockB" _ [] [] aliceS).2.1 "ipONE" sessId "clientAAA"
     (by decide) rfl rfl (by decide) rfl (by decide) rfl rfl,
   (C10_join_side_effects 50 100 "sockB" _ [] [] aliceS).2.2
     (by unfold SessInv SInv; decide) (by decide)⟩

/-! ## Claim C1: at most one countdown per round

A single session's round is modelled under the cooperative event loop.
The only handler with an `await` between a mutation and a later check is
`vote` (the emit on server.py line 590), so a vote event is two atomic
steps: `votePhase1` (record the vote, compute the `all_voted` snapshot,
emit) and, after an arbitrary interleaving, `votePhase2` (the
`revealed` check-and-set plus `asyncio.create_task(countdown())`, lines
592-632, which contain no `await`).  Steps of the other handlers never
write the `revealed` flag of an existing session (`join`, `disconnect`,
`hostVotingDecision` touch only `users`, `hostClientId`, `deck`,
`lastActivity`), so they are abstracted by the `other` step, a superset of
their behaviours; deletion (new round, expiry) is the `delete` step.  The
state is (the session if alive, the pending phase-2 snapshots in flight,
the number of countdown tasks ever spawned this round). -/

abbrev C1State : Type := Option Session × List Bool × ℕ

def omap : Option Session → Sessions
  | some s => [(sessId, s)]
  | none => []

/-- Effect of one `votePhase1` on the session and the pending snapshot. -/
def doPhase1 (sid : String) (d : VoteData) (rlOk : Bool) (s : Session) :
    Option Session × Option Bool :=
  (alookup sessId (votePhase1 sid d rlOk [(sessId, s)]).sessions,
   ((votePhase1 sid d rlOk [(sessId, s)]).pending).map Prod.snd)

/-- Effect of one `votePhase2` consuming a pending snapshot: a `KeyError`
(deleted session) spawns nothing; otherwise the check-and-set runs
atomically and reports whether a countdown task was created. -/
def doPhase2 (σs : Option Session) (av : Bool) (c : ℕ) : Option Session × ℕ :=
  match votePhase2 sessId av (omap σs) with
  | none => (σs, c)
  | some (S', sp) => (alookup sessId S', c + (bif sp then 1 else 0))

inductive C1Step : C1State → C1State → Prop
  | vote1 (sid : String) (d : VoteData) (rlOk : Bool) (s : Session)
      (p : List Bool) (c : ℕ) :
      C1Step (some s, p, c)
        ((doPhase1 sid d rlOk s).1, p ++ (doPhase1 sid d rlOk s).2.toList, c)
  | vote2 (σs : Option Session) (av : Bool) (p1 p2 : List Bool) (c : ℕ) :
      C1Step (σs, p1 ++ av :: p2, c)
        ((doPhase2 σs av c).1, p1 ++ p2, (doPhase2 σs av c).2)
  | other (s s' : Session) (p : List Bool) (c : ℕ)
      (hrev : s'.revealed = s.revealed) :
      C1Step (some s, p, c) (some s', p, c)
  | delete (s : Session) (p : List Bool) (c : ℕ) :
      C1Step (some s, p, c) (none, p, c)

def C1Inv (σ : C1State) : Prop :=
  σ.2.2 ≤ 1 ∧ ∀ s, σ.1 = some s → (s.revealed = true ↔ σ.2.2 = 1)

/-- `votePhase1` either drops the event entirely or records the vote of a
present member of an existing session. -/
theorem votePhase1_cases (sid : String) (d : VoteData) (rlOk : Bool) (S : Sessions) :
    votePhase1 sid d rlOk S = ⟨S, [], none⟩ ∨
    ∃ sidStr sess u,
      alookup sidStr S = some sess ∧
      alookup sid sess.users = some u ∧
      votePhase1 sid d rlOk S =
        ⟨dictSet sidStr
           { sess with users := dictSet sid { u with vote := some d.value } sess.users } S,
         [Emit.usersUpdate (dictSet sid { u with vote := some d.value } sess.users) sidStr],
         some (sidStr, allVotedCheck (effectiveVoters
            (dictSet sid { u with vote := some d.value } sess.users)))⟩ := by
  simp only [votePhase1]
  repeat' split
  all_goals try (left; rfl)
  all_goals
    right
    exact ⟨_, _, _, by assumption, by assumption, rfl⟩

theorem doPhase1_revealed (sid : String) (d : VoteData) (rlOk : Bool)
    (s s' : Session) (h : (doPhase1 sid d rlOk s).1 = some s') :
    s'.revealed = s.revealed := by
  rcases votePhase1_cases sid d rlOk [(sessId, s)] with hcase |
    ⟨sidStr, sess, u, hsess, hu, hcase⟩
  · unfold doPhase1 at h
    rw [hcase] at h
    replace h : alookup sessId [(sessId, s)] = some s' := h
    rw [alookup_cons_eq, Option.some.injEq] at h
    subst h
    rfl
  · have hid : sidStr = sessId ∧ sess = s := by
      by_cases hx : sessId = sidStr
      · subst hx
        rw [alookup_cons_eq, Option.some.injEq] at hsess
        exact ⟨rfl, hsess.symm⟩
      · rw [alookup_cons_ne _ _ _ _ hx] at hsess
        simp [alookup] at hsess
    obtain ⟨h1, h2⟩ := hid
    subst h1
    subst h2
    unfold doPhase1 at h
    rw [hcase] at h
    replace h : alookup sessId (dictSet sessId
        { sess with users := dictSet sid { u with vote := some d.value } sess.users }
        [(sessId, sess)]) = some s' := h
    rw [dictSet_cons_eq, alookup_cons_eq, Option.some.injEq] at h
    subst h
    rfl

theorem C1Step_inv {σ σ' : C1State} (h : C1Step σ σ') (hi : C1Inv σ) : C1Inv σ' := by
  cases h with
  | vote1 sid d rlOk s p c =>
    obtain ⟨hc, hrev⟩ := hi
    refine ⟨hc, ?_⟩
    intro s' hs'
    rw [doPhase1_revealed sid d rlOk s s' hs']
    exact hrev s rfl
  | vote2 σs av p1 p2 c =>
    obtain ⟨hc, hrev⟩ := hi
    cases σs with
    | none =>
      refine ⟨hc, ?_⟩
      intro s hs
      simp [doPhase2, votePhase2, omap, alookup] at hs
    | some s =>
      by_cases hsp : (av && !s.revealed) = true
      · have hrf : s.revealed = false := by
          cases hr : s.revealed
          · rfl
          · rw [hr] at hsp; simp at hsp
        have hc' : c ≤ 1 := hc
        have hc0 : c = 0 := by
          have hiff := hrev s rfl
          have hne1 : ¬ (c = 1) := fun h1 => by
            rw [hrf] at hiff
            exact absurd (hiff.mpr h1) (by simp)
          omega
        have hd2 : doPhase2 (some s) av c = (some { s with revealed := true }, c + 1) := by
          simp [doPhase2, votePhase2, omap, alookup_cons_eq, hsp, dictSet_cons_eq]
        rw [hd2]
        subst hc0
        refine ⟨by show 0 + 1 ≤ 1; omega, fun t ht => by
          injection ht with ht
          subst ht
          simp⟩
      · have hd2 : doPhase2 (some s) av c = (some s, c) := by
          simp only [doPhase2, votePhase2, omap, alookup_cons_eq]
          rw [if_neg hsp]
          simp [alookup_cons_eq]
        rw [hd2]
        exact ⟨hc, fun t ht => by
          injection ht with ht
          subst ht
          exact hrev s rfl⟩
  | other s s' p c hrev' =>
    obtain ⟨hc, hrev⟩ := hi
    refine ⟨hc, ?_⟩
    intro t ht
    injection ht with ht
    subst ht
    rw [hrev']
    exact hrev s rfl
  | delete s p c =>
    exact ⟨hi.1, fun t ht => by cases ht⟩

/-- **C1** — At most one countdown per round.  For every interleaved
sequence of vote events (each split at its await point into `votePhase1`
and `votePhase2`), other-handler steps (which never write `revealed`) and
session deletion, starting from an unrevealed session: the number of
countdown tasks ever spawned stays ≤ 1, and while the session is alive its
`revealed` flag is true exactly when that one countdown has been spawned —
so `revealed` transitions false→true exactly once per round, and a second
qualifying vote whose handler interleaves at the await point with the
first does not spawn a second countdown. -/
theorem C1_one_countdown (s0 : Session) (σ : C1State)
    (h0 : s0.revealed = false)
    (hreach : Relation.ReflTransGen C1Step (some s0, [], 0) σ) :
    σ.2.2 ≤ 1 ∧ ∀ s, σ.1 = some s → (s.revealed = true ↔ σ.2.2 = 1) := by
  have hinv : C1Inv σ := by
    induction hreach with
    | refl =>
      refine ⟨by show (0 : ℕ) ≤ 1; omega, ?_⟩
      intro s hs
      injection hs with hs
      subst hs
      rw [h0]
      simp
    | tail hr hstep ih => exact C1Step_inv hstep ih
  exact hinv

/-- Fixture for the C1 witness: a two-member session where everyone but
Ben has voted, and Ben's qualifying vote arrives twice in rapid
succession (two phase-1 steps interleave before either phase 2 runs). -/
def c1u1 : User := ⟨"Ann", some (PyVal.vint 5), true, "clientCCC", none⟩
def c1u2 : User := ⟨"Ben", none, false, "clientDDD", none⟩
def c1sess0 : Session := ⟨[("s1", c1u1), ("s2", c1u2)], false, some "clientCCC", 0, 0, DEFAULT_DECK⟩
def c1sess1 : Session := { c1sess0 with
  users := [("s1", c1u1), ("s2", { c1u2 with vote := some (PyVal.vint 5) })] }
def c1sessR : Session := { c1sess1 with revealed := true }

theorem C1_one_countdown_witness :
    ((some c1sessR, ([] : List Bool), 1) : C1State).2.2 ≤ 1 ∧
    ∀ s, ((some c1sessR, ([] : List Bool), 1) : C1State).1 = some s →
      (s.revealed = true ↔ ((some c1sessR, ([] : List Bool), 1) : C1State).2.2 = 1) :=
  C1_one_countdown c1sess0 (some c1sessR, [], 1) rfl
    (by
      have h1 : C1Step (some c1sess0, [], 0) (some c1sess1, [true], 0) :=
        C1Step.vote1 "s2" ⟨true, PyVal.vstr sessId, PyVal.vint 5⟩ true c1sess0 [] 0
      have h2 : C1Step (some c1sess1, [true], 0) (some c1sess1, [true, true], 0) :=
        C1Step.vote1 "s2" ⟨true, PyVal.vstr sessId, PyVal.vint 5⟩ true c1sess1 [true] 0
      have h3 : C1Step (some c1sess1, [true, true], 0) (some c1sessR, [true], 1) :=
        C1Step.vote2 (some c1sess1) true [] [true] 0
      have h4 : C1Step (some c1sessR, [true], 1) (some c1sessR, [], 1) :=
        C1Step.vote2 (some c1sessR) true [] [] 1
      exact Relation.ReflTransGen.tail
        (Relation.ReflTransGen.tail
          (Relation.ReflTransGen.tail
            (Relation.ReflTransGen.tail Relation.ReflTransGen.refl h1) h2) h3) h4)

/-! ## Claim C7: host immutability and the isHost invariant -/

theorem SessInv_dictSet {S : Sessions} {id : String} {sess : Session}
    (hInv : SessInv S) (hs : SInv sess) : SessInv (dictSet id sess S) := by
  intro p hp
  rcases mem_dictSet _ _ _ p hp with h | h
  · exact hInv p h
  · subst h; exact hs

theorem SessInv_adelete {S : Sessions} {id : String}
    (hInv : SessInv S) : SessInv (adelete id S) :=
  fun p hp => hInv p (mem_adelete _ _ p hp)

/-- The `vote` handler either leaves the table unchanged or updates one
member's `vote` field of one existing session (possibly also setting that
session's `revealed` flag); `hostClientId`, `isHost` and `clientId` fields
are untouched. -/
theorem voteH_sessions_cases (sid : String) (d : VoteData) (rlOk : Bool) (S : Sessions) :
    (voteH sid d rlOk S).sessions = S ∨
    ∃ sidStr sess u,
      alookup sidStr S = some sess ∧ alookup sid sess.users = some u ∧
      ((voteH sid d rlOk S).sessions =
         dictSet sidStr
           { sess with users := dictSet sid { u with vote := some d.value } sess.users } S ∨
       (voteH sid d rlOk S).sessions =
         dictSet sidStr
           { sess with
             users := dictSet sid { u with vote := some d.value } sess.users
             revealed := true }
           (dictSet sidStr
             { sess with users := dictSet sid { u with vote := some d.value } sess.users } S)) := by
  rcases votePhase1_cases sid d rlOk S with hc | ⟨sidStr, sess, u, hsess, hu, hc⟩
  · left
    rw [voteH_of_phase1_none hc]
  · right
    refine ⟨sidStr, sess, u, hsess, hu, ?_⟩
    unfold voteH
    rw [hc]
    have hlk1 : alookup sidStr (dictSet sidStr
        { sess with users := dictSet sid { u with vote := some d.value } sess.users } S) =
        some { sess with users := dictSet sid { u with vote := some d.value } sess.users } := by
      rw [alookup_dictSet, if_pos rfl]
    simp only [votePhase2, hlk1]
    by_cases hsp : (allVotedCheck (effectiveVoters
        (dictSet sid { u with vote := some d.value } sess.users)) &&
        !({ sess with
            users := dictSet sid { u with vote := some d.value } sess.users }).revealed) = true
    · rw [if_pos hsp]
      right
      rfl
    · rw [if_neg hsp]
      left
      rfl

/-- The `hostVotingDecision` handler either leaves the table unchanged or
updates one member's `wantsToVote` field of one existing session. -/
theorem hostDec_cases (sid : String) (d : HVDData) (rlOk : Bool) (S : Sessions) :
    (hostVotingDecisionH sid d rlOk S).1 = S ∨
    ∃ sidStr sess u b,
      alookup sidStr S = some sess ∧ alookup sid sess.users = some u ∧
      (hostVotingDecisionH sid d rlOk S).1 =
        dictSet sidStr
          { sess with
            users := dictSet sid { u with wantsToVote := some (PyVal.vbool b) } sess.users } S := by
  simp only [hostVotingDecisionH]
  repeat' split
  all_goals try (left; rfl)
  all_goals
    right
    exact ⟨_, _, _, _, by assumption, by assumption, rfl⟩

/-- `requestNewRound` either leaves the table unchanged or inserts a fresh
member-less session carrying the old host and deck and deletes the old
session. -/
theorem newRound_cases (nowUtc : ℤ) (sid : String) (d : NRData) (rlOk : Bool)
    (newId : String) (S : Sessions) :
    (requestNewRoundH nowUtc sid d rlOk newId S).sessions = S ∨
    ∃ sidStr old, alookup sidStr S = some old ∧
      (requestNewRoundH nowUtc sid d rlOk newId S).sessions =
        adelete sidStr (dictSet newId ⟨[], false, old.hostClientId, nowUtc, nowUtc, old.deck⟩ S) := by
  simp only [requestNewRoundH]
  repeat' split
  all_goals try (left; rfl)
  all_goals
    right
    exact ⟨_, _, by assumption, rfl⟩

/-- The session-mutating tail of `join`: it rewrites exactly the target
session; the written session keeps an already-assigned host (the
assignment happens only when `hostClientId` is `None`), and it satisfies
the per-session invariant. -/
theorem joinCore3_characterize (nowUtc : ℤ) (sid sidStr cid uname : String)
    (dp : Option (List PyVal)) (w : Option PyVal) (lj : List (String × ℤ))
    (S : Sessions) (sess : Session)
    (hlk : alookup sidStr S = some sess) (hInv : SessInv S) :
    ∃ sess',
      (joinCore3 nowUtc sid sidStr cid uname dp w lj S sess).sessions =
        dictSet sidStr sess' S ∧
      (∀ h, sess.hostClientId = some h → sess'.hostClientId = some h) ∧
      SInv sess' := by
  have hsi := hInv _ (alookup_mem _ _ _ hlk)
  by_cases hnone : sess.hostClientId = none
  · have hu0 : sess.users = [] := hsi.1 hnone
    simp only [joinCore3, hnone, if_pos rfl, hu0, if_true]
    refine ⟨_, rfl, ?_, ?_⟩
    · intro h hh
      cases hh
    · constructor
      · intro hn
        cases hn
      · intro q hq
        rcases mem_dictSet _ _ _ q hq with h' | h'
        · cases h'
        · subst h'
          simp
  · simp only [joinCore3, if_neg hnone]
    by_cases hdup : (sess.users.any (fun q => q.2.clientId == cid)) = true
    · rw [if_pos hdup]
      exact ⟨sess, rfl, fun h hh => hh, hsi⟩
    · rw [if_neg hdup]
      refine ⟨_, rfl, fun h hh => hh, ?_, ?_⟩
      · intro hn
        exact absurd hn hnone
      · intro q hq
        rcases mem_dictSet _ _ _ q hq with h' | h'
        · exact hsi.2 q h'
        · subst h'
          simp [decide_eq_true_eq]

theorem joinCore2_sessions_cases (nowUtc : ℤ) (sid sidStr cid : String) (d : JoinData)
    (lj : List (String × ℤ)) (S : Sessions) (hInv : SessInv S) :
    (joinCore2 nowUtc sid sidStr cid d lj S).sessions = S ∨
    ∃ sess sess', alookup sidStr S = some sess ∧
      (joinCore2 nowUtc sid sidStr cid d lj S).sessions = dictSet sidStr sess' S ∧
      (∀ h, sess.hostClientId = some h → sess'.hostClientId = some h) ∧
      SInv sess' := by
  unfold joinCore2
  split
  next => left; rfl
  next sess hlk =>
    split
    · left; rfl
    · split
      next => left; rfl
      next uname hun =>
        split
        · left; rfl
        · right
          obtain ⟨sess', heq, hcond, hsi⟩ :=
            joinCore3_characterize nowUtc sid sidStr cid uname d.deck d.wantsToVote
              lj S sess hlk hInv
          exact ⟨sess, sess', hlk, heq, hcond, hsi⟩

theorem joinCore_sessions_cases (now nowUtc : ℤ) (sid : String) (d : JoinData)
    (lj : List (String × ℤ)) (S : Sessions) (hInv : SessInv S) :
    (joinCore now nowUtc sid d lj S).sessions = S ∨
    ∃ sidStr sess sess', alookup sidStr S = some sess ∧
      (joinCore now nowUtc sid d lj S).sessions = dictSet sidStr sess' S ∧
      (∀ h, sess.hostClientId = some h → sess'.hostClientId = some h) ∧
      SInv sess' := by
  unfold joinCore
  split
  · left; rfl
  · split
    next => left; rfl
    next sidStr hsid =>
      split
      · left; rfl
      · split
        next => left; rfl
        next cid hcid =>
          split
          · left; rfl
          · split
            · left; rfl
            · rcases joinCore2_sessions_cases nowUtc sid sidStr cid d _ S hInv with h |
                ⟨sess, sess', hlk, heq, hcond, hsi⟩
              · left; exact h
              · right; exact ⟨sidStr, sess, sess', hlk, heq, hcond, hsi⟩

theorem joinH_sessions_cases (now nowUtc : ℤ) (sid : String) (d : JoinData)
    (led : List ℤ) (lj : List (String × ℤ)) (S : Sessions) (hInv : SessInv S) :
    (joinH now nowUtc sid d led lj S).sessions = S ∨
    ∃ sidStr sess sess', alookup sidStr S = some sess ∧
      (joinH now nowUtc sid d led lj S).sessions = dictSet sidStr sess' S ∧
      (∀ h, sess.hostClientId = some h → sess'.hostClientId = some h) ∧
      SInv sess' := by
  unfold joinH
  split
  · left; rfl
  · exact joinCore_sessions_cases now nowUtc sid d lj S hInv

/-- One inbound event processed by the server: any of the five Socket.IO
handlers, each with arbitrary payload, rate-gate outcome and clock values;
`requestNewRound`'s fresh id is assumed not to collide with a live id
(`secrets.token_urlsafe` collisions are excluded by assumption). -/
inductive EvStep : Sessions → Sessions → Prop
  | join (now nowUtc : ℤ) (sid : String) (d : JoinData) (led : List ℤ)
      (lj : List (String × ℤ)) (S : Sessions) :
      EvStep S (joinH now nowUtc sid d led lj S).sessions
  | vote (sid : String) (d : VoteData) (rlOk : Bool) (S : Sessions) :
      EvStep S (voteH sid d rlOk S).sessions
  | hostDec (sid : String) (d : HVDData) (rlOk : Bool) (S : Sessions) :
      EvStep S (hostVotingDecisionH sid d rlOk S).1
  | newRound (nowUtc : ℤ) (sid : String) (d : NRData) (rlOk : Bool) (newId : String)
      (S : Sessions) (hfresh : alookup newId S = none) :
      EvStep S (requestNewRoundH nowUtc sid d rlOk newId S).sessions
  | disc (sid : String) (S : Sessions) :
      EvStep S (disconnectH sid S).1

theorem EvStep_inv {S S' : Sessions} (h : EvStep S S') (hInv : SessInv S) : SessInv S' := by
  cases h with
  | join now nowUtc sid d led lj S =>
    rcases joinH_sessions_cases now nowUtc sid d led lj S hInv with h |
      ⟨sidStr, sess, sess', hlk, heq, hcond, hsi⟩
    · rw [h]; exact hInv
    · rw [heq]; exact SessInv_dictSet hInv hsi
  | vote sid d rlOk S =>
    rcases voteH_sessions_cases sid d rlOk S with h | ⟨sidStr, sess, u, hsess, hu, h⟩
    · rw [h]; exact hInv
    · have hsi := hInv _ (alookup_mem _ _ _ hsess)
      have husers : SInv { sess with
          users := dictSet sid { u with vote := some d.value } sess.users } := by
        constructor
        · intro hn
          exfalso
          have h0 := hsi.1 hn
          rw [h0] at hu
          simp [alookup] at hu
        · intro q hq
          rcases mem_dictSet _ _ _ q hq with h' | h'
          · exact hsi.2 q h'
          · subst h'
            exact hsi.2 (sid, u) (alookup_mem _ _ _ hu)
      rcases h with h | h
      · rw [h]; exact SessInv_dictSet hInv husers
      · rw [h]
        exact SessInv_dictSet (SessInv_dictSet hInv husers) ⟨husers.1, husers.2⟩
  | hostDec sid d rlOk S =>
    rcases hostDec_cases sid d rlOk S with h | ⟨sidStr, sess, u, b, hsess, hu, h⟩
    · rw [h]; exact hInv
    · have hsi := hInv _ (alookup_mem _ _ _ hsess)
      rw [h]
      apply SessInv_dictSet hInv
      constructor
      · intro hn
        exfalso
        have h0 := hsi.1 hn
        rw [h0] at hu
        simp [alookup] at hu
      · intro q hq
        rcases mem_dictSet _ _ _ q hq with h' | h'
        · exact hsi.2 q h'
        · subst h'
          exact hsi.2 (sid, u) (alookup_mem _ _ _ hu)
  | newRound nowUtc sid d rlOk newId S hfresh =>
    rcases newRound_cases nowUtc sid d rlOk newId S with h | ⟨sidStr, old, hlk, h⟩
    · rw [h]; exact hInv
    · rw [h]
      apply SessInv_adelete
      apply SessInv_dictSet hInv
      exact ⟨fun _ => rfl, fun q hq => absurd hq (List.not_mem_nil q)⟩
  | disc sid S =>
    unfold disconnectH
    split
    · exact hInv
    next p hfind =>
      have hp : p ∈ S := List.mem_of_find?_eq_some hfind
      have hsi := hInv p hp
      apply SessInv_dictSet hInv
      constructor
      · intro hn
        have h0 := hsi.1 hn
        show eraseKey sid p.2.users = []
        rw [h0]
        rfl
      · intro q hq
        exact hsi.2 q (mem_eraseKey _ _ q hq)

/-- Python dict keys are unique; the assoc-list embedding of the session
table carries this as an explicit invariant. -/
def KeysNodup {α : Type} (l : List (String × α)) : Prop :=
  (l.map Prod.fst).Nodup

theorem alookup_isSome_of_mem {α : Type} {k : String} {v : α} {l : List (String × α)}
    (h : (k, v) ∈ l) : (alookup k l).isSome = true := by
  induction l with
  | nil => cases h
  | cons p rest ih =>
    obtain ⟨a, b⟩ := p
    by_cases ha : a = k
    · simp [alookup, ha]
    · rcases List.mem_cons.mp h with h1 | h1
      · injection h1 with hk hv
        exact absurd hk.symm ha
      · rw [alookup_cons_ne _ _ _ _ ha]
        exact ih h1

theorem keys_dictSet_mem {α : Type} (k : String) (v : α) (l : List (String × α))
    (h : (alookup k l).isSome = true) :
    (dictSet k v l).map Prod.fst = l.map Prod.fst := by
  induction l with
  | nil => simp [alookup] at h
  | cons p rest ih =>
    obtain ⟨a, b⟩ := p
    by_cases ha : a = k
    · subst ha
      rw [dictSet_cons_eq]
      rfl
    · rw [alookup_cons_ne _ _ _ _ ha] at h
      rw [dictSet_cons_ne _ _ _ _ _ ha]
      simp only [List.map_cons]
      rw [ih h]

theorem keys_dictSet_fresh {α : Type} (k : String) (v : α) (l : List (String × α))
    (h : alookup k l = none) :
    (dictSet k v l).map Prod.fst = l.map Prod.fst ++ [k] := by
  induction l with
  | nil => rfl
  | cons p rest ih =>
    obtain ⟨a, b⟩ := p
    by_cases ha : a = k
    · rw [ha, alookup_cons_eq] at h
      cases h
    · rw [alookup_cons_ne _ _ _ _ ha] at h
      rw [dictSet_cons_ne _ _ _ _ _ ha]
      simp only [List.map_cons, List.cons_append]
      rw [ih h]

theorem keys_adelete_sublist {α : Type} (k : String) (l : List (String × α)) :
    ((adelete k l).map Prod.fst).Sublist (l.map Prod.fst) := by
  induction l with
  | nil => exact List.Sublist.refl _
  | cons p rest ih =>
    obtain ⟨a, b⟩ := p
    by_cases ha : a = k
    · simp only [adelete, if_pos ha, List.map_cons]
      exact List.Sublist.cons _ ih
    · simp only [adelete, if_neg ha, List.map_cons]
      exact List.Sublist.cons₂ _ ih

theorem not_mem_keys_of_alookup_none {α : Type} {k : String} {l : List (String × α)}
    (h : alookup k l = none) : k ∉ l.map Prod.fst := by
  induction l with
  | nil => simp
  | cons p rest ih =>
    obtain ⟨a, b⟩ := p
    by_cases ha : a = k
    · rw [ha, alookup_cons_eq] at h
      cases h
    · rw [alookup_cons_ne _ _ _ _ ha] at h
      simp only [List.map_cons, List.mem_cons]
      rintro (h1 | h1)
      · exact ha h1.symm
      · exact ih h h1

/-- With unique keys, any member of the assoc list is what `alookup` finds
for its key (Python: `d[k]` is *the* entry with key `k`). -/
theorem alookup_of_mem_nodup {α : Type} {k : String} {v : α} {l : List (String × α)}
    (hnd : KeysNodup l) (h : (k, v) ∈ l) : alookup k l = some v := by
  induction l with
  | nil => cases h
  | cons p rest ih =>
    obtain ⟨a, b⟩ := p
    unfold KeysNodup at hnd
    simp only [List.map_cons, List.nodup_cons] at hnd
    rcases List.mem_cons.mp h with h1 | h1
    · injection h1 with hk hv
      subst hk
      subst hv
      exact alookup_cons_eq _ _ _
    · by_cases ha : a = k
      · exfalso
        apply hnd.1
        rw [ha]
        exact List.mem_map.mpr ⟨(k, v), h1, rfl⟩
      · rw [alookup_cons_ne _ _ _ _ ha]
        exact ih hnd.2 h1

theorem KeysNodup_dictSet_mem {α : Type} {k : String} {v : α} {l : List (String × α)}
    (hK : KeysNodup l) (h : (alookup k l).isSome = true) : KeysNodup (dictSet k v l) := by
  unfold KeysNodup
  rw [keys_dictSet_mem k v l h]
  exact hK

theorem KeysNodup_dictSet_fresh {α : Type} {k : String} {v : α} {l : List (String × α)}
    (hK : KeysNodup l) (h : alookup k l = none) : KeysNodup (dictSet k v l) := by
  unfold KeysNodup
  rw [keys_dictSet_fresh k v l h]
  apply List.Nodup.append hK (List.nodup_singleton k)
  intro a ha hb
  rw [List.mem_singleton] at hb
  subst hb
  exact not_mem_keys_of_alookup_none h ha

theorem KeysNodup_adelete {α : Type} {k : String} {l : List (String × α)}
    (hK : KeysNodup l) : KeysNodup (adelete k l) :=
  List.Nodup.sublist (keys_adelete_sublist k l) hK
/-- Every handler preserves uniqueness of session ids: mutating handlers
rewrite an existing key, `requestNewRound` adds a fresh key and deletes
one, deletion only removes keys. -/
theorem EvStep_keys {S T : Sessions} (h : EvStep S T) (hInv : SessInv S)
    (hK : KeysNodup S) : KeysNodup T := by
  cases h with
  | join now nowUtc sid d led lj S =>
    rcases joinH_sessions_cases now nowUtc sid d led lj S hInv with hcase |
      ⟨sidStr, s0, s1, hlk0, heq, hcond, hsi⟩
    · rw [hcase]; exact hK
    · rw [heq]
      exact KeysNodup_dictSet_mem hK (by rw [hlk0]; rfl)
  | vote sid d rlOk S =>
    rcases voteH_sessions_cases sid d rlOk S with hcase | ⟨sidStr, s0, u, hsess, hu, hcase⟩
    · rw [hcase]; exact hK
    · have hs1 : (alookup sidStr S).isSome = true := by rw [hsess]; rfl
      rcases hcase with hcase | hcase
      · rw [hcase]
        exact KeysNodup_dictSet_mem hK hs1
      · rw [hcase]
        apply KeysNodup_dictSet_mem (KeysNodup_dictSet_mem hK hs1)
        rw [alookup_dictSet, if_pos rfl]
        rfl
  | hostDec sid d rlOk S =>
    rcases hostDec_cases sid d rlOk S with hcase | ⟨sidStr, s0, u, b, hsess, hu, hcase⟩
    · rw [hcase]; exact hK
    · rw [hcase]
      exact KeysNodup_dictSet_mem hK (by rw [hsess]; rfl)
  | newRound nowUtc sid d rlOk newId S hfresh =>
    rcases newRound_cases nowUtc sid d rlOk newId S with hcase | ⟨sidStr, old, hlko, hcase⟩
    · rw [hcase]; exact hK
    · rw [hcase]
      exact KeysNodup_adelete (KeysNodup_dictSet_fresh hK hfresh)
  | disc sid S =>
    unfold disconnectH
    split
    · exact hK
    next p hfind =>
      have hp : p ∈ S := List.mem_of_find?_eq_some hfind
      apply KeysNodup_dictSet_mem hK
      exact alookup_isSome_of_mem (show (p.1, p.2) ∈ S from hp)

/-- One event step never changes an already-assigned `hostClientId` of a
session that survives the step: afterwards the id is either gone or still
maps to a session with the same host. -/
theorem EvStep_host_stable {S T : Sessions} (h : EvStep S T) (hInv : SessInv S)
    (hK : KeysNodup S) (id : String) (sess : Session) (hhost : String)
    (hlk : alookup id S = some sess) (hh : sess.hostClientId = some hhost) :
    alookup id T = none ∨
    ∃ s1, alookup id T = some s1 ∧ s1.hostClientId = some hhost := by
  cases h with
  | join now nowUtc sid d led lj S =>
    rcases joinH_sessions_cases now nowUtc sid d led lj S hInv with hcase |
      ⟨sidStr, s0, s1, hlk0, heq, hcond, hsi⟩
    · rw [hcase]; right; exact ⟨sess, hlk, hh⟩
    · rw [heq]
      by_cases hid : id = sidStr
      · subst hid
        have hse : s0 = sess := by
          rw [hlk0] at hlk
          exact Option.some.inj hlk
        right
        refine ⟨s1, ?_, ?_⟩
        · rw [alookup_dictSet, if_pos rfl]
        · exact hcond hhost (by rw [hse]; exact hh)
      · right
        refine ⟨sess, ?_, hh⟩
        rw [alookup_dictSet, if_neg hid, hlk]
  | vote sid d rlOk S =>
    rcases voteH_sessions_cases sid d rlOk S with hcase | ⟨sidStr, s0, u, hsess, hu, hcase⟩
    · rw [hcase]; right; exact ⟨sess, hlk, hh⟩
    · by_cases hid : id = sidStr
      · subst hid
        have hse : s0 = sess := by
          rw [hsess] at hlk
          exact Option.some.inj hlk
        rcases hcase with hcase | hcase
        · rw [hcase]
          right
          refine ⟨{ s0 with users := dictSet sid { u with vote := some d.value } s0.users },
            ?_, ?_⟩
          · rw [alookup_dictSet, if_pos rfl]
          · show s0.hostClientId = some hhost
            rw [hse]
            exact hh
        · rw [hcase]
          right
          refine ⟨{ s0 with
              users := dictSet sid { u with vote := some d.value } s0.users
              revealed := true }, ?_, ?_⟩
          · rw [alookup_dictSet, if_pos rfl]
          · show s0.hostClientId = some hhost
            rw [hse]
            exact hh
      · rcases hcase with hcase | hcase
        · rw [hcase]
          right
          refine ⟨sess, ?_, hh⟩
          rw [alookup_dictSet, if_neg hid, hlk]
        · rw [hcase]
          right
          refine ⟨sess, ?_, hh⟩
          rw [alookup_dictSet, if_neg hid, alookup_dictSet, if_neg hid, hlk]
  | hostDec sid d rlOk S =>
    rcases hostDec_cases sid d rlOk S with hcase | ⟨sidStr, s0, u, b, hsess, hu, hcase⟩
    · rw [hcase]; right; exact ⟨sess, hlk, hh⟩
    · by_cases hid : id = sidStr
      · subst hid
        have hse : s0 = sess := by
          rw [hsess] at hlk
          exact Option.some.inj hlk
        rw [hcase]
        right
        refine ⟨{ s0 with
            users := dictSet sid { u with wantsToVote := some (PyVal.vbool b) } s0.users },
          ?_, ?_⟩
        · rw [alookup_dictSet, if_pos rfl]
        · show s0.hostClientId = some hhost
          rw [hse]
          exact hh
      · rw [hcase]
        right
        refine ⟨sess, ?_, hh⟩
        rw [alookup_dictSet, if_neg hid, hlk]
  | newRound nowUtc sid d rlOk newId S hfresh =>
    rcases newRound_cases nowUtc sid d rlOk newId S with hcase | ⟨sidStr, old, hlko, hcase⟩
    · rw [hcase]; right; exact ⟨sess, hlk, hh⟩
    · rw [hcase]
      by_cases hid : id = sidStr
      · subst hid
        left
        exact alookup_adelete_self _ _
      · have hidnew : id ≠ newId := by
          intro he
          rw [he, hfresh] at hlk
          cases hlk
        right
        refine ⟨sess, ?_, hh⟩
        rw [alookup_adelete_ne _ _ _ hid, alookup_dictSet, if_neg hidnew, hlk]
  | disc sid S =>
    unfold disconnectH
    split
    · right; exact ⟨sess, hlk, hh⟩
    next p hfind =>
      have hp : p ∈ S := List.mem_of_find?_eq_some hfind
      by_cases hid : id = p.1
      · subst hid
        have hpe : p.2 = sess := by
          have h2 : alookup p.1 S = some p.2 :=
            alookup_of_mem_nodup hK (show (p.1, p.2) ∈ S from hp)
          rw [h2] at hlk
          exact Option.some.inj hlk
        right
        refine ⟨{ p.2 with users := eraseKey sid p.2.users }, ?_, ?_⟩
        · show alookup p.1 (dictSet p.1 { p.2 with users := eraseKey sid p.2.users } S) =
            some { p.2 with users := eraseKey sid p.2.users }
          rw [alookup_dictSet, if_pos rfl]
        · show p.2.hostClientId = some hhost
          rw [hpe]
          exact hh
      · right
        refine ⟨sess, ?_, hh⟩
        show alookup id (dictSet p.1 { p.2 with users := eraseKey sid p.2.users } S) = some sess
        rw [alookup_dictSet, if_neg hid, hlk]
/-- A finite run of the server: `EvTrace S tr` lists the successive session
tables produced by a sequence of handled events starting from `S`. -/
inductive EvTrace : Sessions → List Sessions → Prop
  | nil (S : Sessions) : EvTrace S []
  | cons (S T : Sessions) (rest : List Sessions) (h : EvStep S T)
      (htr : EvTrace T rest) : EvTrace S (T :: rest)

theorem trace_inv : ∀ (S : Sessions) (tr : List Sessions), EvTrace S tr →
    SessInv S → KeysNodup S → ∀ T ∈ tr, SessInv T ∧ KeysNodup T := by
  intro S tr htr
  induction htr with
  | nil S => intro _ _ T hT; cases hT
  | cons S T0 rest hstep htr2 ih =>
    intro hInv hK T hT
    have hI0 := EvStep_inv hstep hInv
    have hK0 := EvStep_keys hstep hInv hK
    rcases List.mem_cons.mp hT with he | he
    · subst he; exact ⟨hI0, hK0⟩
    · exact ih hI0 hK0 T he

theorem trace_host_const : ∀ (S : Sessions) (tr : List Sessions), EvTrace S tr →
    ∀ id hhost : String, SessInv S → KeysNodup S →
    ∀ sess, alookup id S = some sess → sess.hostClientId = some hhost →
    (∀ T ∈ tr, (alookup id T).isSome = true) →
    ∀ T ∈ tr, ∃ s1, alookup id T = some s1 ∧ s1.hostClientId = some hhost := by
  intro S tr htr
  induction htr with
  | nil S => intro id hhost _ _ _ _ _ _ T hT; cases hT
  | cons S T0 rest hstep htr2 ih =>
    intro id hhost hInv hK sess hlk hh halive T hT
    have h0 : (alookup id T0).isSome = true := halive T0 (List.mem_cons_self _ _)
    rcases EvStep_host_stable hstep hInv hK id sess hhost hlk hh with hnone | ⟨s1, hlk1, hh1⟩
    · rw [hnone] at h0
      exact absurd h0 (by simp)
    · rcases List.mem_cons.mp hT with he | he
      · subst he; exact ⟨s1, hlk1, hh1⟩
      · exact ih id hhost (EvStep_inv hstep hInv) (EvStep_keys hstep hInv hK) s1 hlk1 hh1
          (fun U hU => halive U (List.mem_cons_of_mem _ hU)) T he

/-- The `vote` handler never touches `hostClientId`: any live id keeps
exactly its host. -/
theorem vote_host_exact (sid : String) (d : VoteData) (rlOk : Bool) (S : Sessions)
    (id : String) (sess : Session) (hlk : alookup id S = some sess) :
    ∃ s1, alookup id (voteH sid d rlOk S).sessions = some s1 ∧
      s1.hostClientId = sess.hostClientId := by
  rcases voteH_sessions_cases sid d rlOk S with hcase | ⟨sidStr, s0, u, hsess, hu, hcase⟩
  · rw [hcase]; exact ⟨sess, hlk, rfl⟩
  · by_cases hid : id = sidStr
    · subst hid
      have hse : s0 = sess := by
        rw [hsess] at hlk
        exact Option.some.inj hlk
      rcases hcase with hcase | hcase
      · rw [hcase]
        refine ⟨{ s0 with users := dictSet sid { u with vote := some d.value } s0.users },
          ?_, ?_⟩
        · rw [alookup_dictSet, if_pos rfl]
        · show s0.hostClientId = sess.hostClientId
          rw [hse]
      · rw [hcase]
        refine ⟨{ s0 with
            users := dictSet sid { u with vote := some d.value } s0.users
            revealed := true }, ?_, ?_⟩
        · rw [alookup_dictSet, if_pos rfl]
        · show s0.hostClientId = sess.hostClientId
          rw [hse]
    · rcases hcase with hcase | hcase
      · rw [hcase]
        refine ⟨sess, ?_, rfl⟩
        rw [alookup_dictSet, if_neg hid, hlk]
      · rw [hcase]
        refine ⟨sess, ?_, rfl⟩
        rw [alookup_dictSet, if_neg hid, alookup_dictSet, if_neg hid, hlk]

/-- The `hostVotingDecision` handler never touches `hostClientId`. -/
theorem hostDec_host_exact (sid : String) (d : HVDData) (rlOk : Bool) (S : Sessions)
    (id : String) (sess : Session) (hlk : alookup id S = some sess) :
    ∃ s1, alookup id (hostVotingDecisionH sid d rlOk S).1 = some s1 ∧
      s1.hostClientId = sess.hostClientId := by
  rcases hostDec_cases sid d rlOk S with hcase | ⟨sidStr, s0, u, b, hsess, hu, hcase⟩
  · rw [hcase]; exact ⟨sess, hlk, rfl⟩
  · by_cases hid : id = sidStr
    · subst hid
      have hse : s0 = sess := by
        rw [hsess] at hlk
        exact Option.some.inj hlk
      rw [hcase]
      refine ⟨{ s0 with
          users := dictSet sid { u with wantsToVote := some (PyVal.vbool b) } s0.users },
        ?_, ?_⟩
      · rw [alookup_dictSet, if_pos rfl]
      · show s0.hostClientId = sess.hostClientId
        rw [hse]
    · rw [hcase]
      refine ⟨sess, ?_, rfl⟩
      rw [alookup_dictSet, if_neg hid, hlk]

/-- The `disconnect` handler never touches `hostClientId`. -/
theorem disc_host_exact (sid2 : String) (S : Sessions) (hK : KeysNodup S)
    (id : String) (sess : Session) (hlk : alookup id S = some sess) :
    ∃ s1, alookup id (disconnectH sid2 S).1 = some s1 ∧
      s1.hostClientId = sess.hostClientId := by
  unfold disconnectH
  split
  · exact ⟨sess, hlk, rfl⟩
  next p hfind =>
    have hp : p ∈ S := List.mem_of_find?_eq_some hfind
    by_cases hid : id = p.1
    · subst hid
      have hpe : p.2 = sess := by
        have h2 : alookup p.1 S = some p.2 :=
          alookup_of_mem_nodup hK (show (p.1, p.2) ∈ S from hp)
        rw [h2] at hlk
        exact Option.some.inj hlk
      refine ⟨{ p.2 with users := eraseKey sid2 p.2.users }, ?_, ?_⟩
      · show alookup p.1 (dictSet p.1 { p.2 with users := eraseKey sid2 p.2.users } S) =
          some { p.2 with users := eraseKey sid2 p.2.users }
        rw [alookup_dictSet, if_pos rfl]
      · show p.2.hostClientId = sess.hostClientId
        rw [hpe]
    · refine ⟨sess, ?_, rfl⟩
      show alookup id (dictSet p.1 { p.2 with users := eraseKey sid2 p.2.users } S) = some sess
      rw [alookup_dictSet, if_neg hid, hlk]

/-- `join` never reassigns an already-set `hostClientId` (server.py line
496 assigns only under `hostClientId is None`). -/
theorem join_host_exact (now nowUtc : ℤ) (sid : String) (d : JoinData) (led : List ℤ)
    (lj : List (String × ℤ)) (S : Sessions) (hInv : SessInv S)
    (id : String) (sess : Session) (hlk : alookup id S = some sess)
    (hset : sess.hostClientId ≠ none) :
    ∃ s1, alookup id (joinH now nowUtc sid d led lj S).sessions = some s1 ∧
      s1.hostClientId = sess.hostClientId := by
  rcases joinH_sessions_cases now nowUtc sid d led lj S hInv with hcase |
    ⟨sidStr, s0, s1, hlk0, heq, hcond, hsi⟩
  · rw [hcase]; exact ⟨sess, hlk, rfl⟩
  · rw [heq]
    by_cases hid : id = sidStr
    · subst hid
      have hse : s0 = sess := by
        rw [hlk0] at hlk
        exact Option.some.inj hlk
      obtain ⟨h0, hh0⟩ := Option.ne_none_iff_exists'.mp hset
      refine ⟨s1, ?_, ?_⟩
      · rw [alookup_dictSet, if_pos rfl]
      · rw [hh0]
        exact hcond h0 (by rw [hse]; exact hh0)
    · refine ⟨sess, ?_, rfl⟩
      rw [alookup_dictSet, if_neg hid, hlk]
/-- Claim C7: along every event trace (join, vote, hostVotingDecision,
requestNewRound, disconnect) from a well-formed table, (i) every reached
table is well-formed and every member's `isHost` flag is true iff the
member's durable client id equals the session's `hostClientId`; (ii) a
session whose `hostClientId` is assigned keeps exactly that host at every
state of the trace at which its id is still alive throughout — the host is
never changed for the session's lifetime; (iii) no handler other than a
first successful `join` into a hostless session ever writes a different
`hostClientId`: `vote`, `hostVotingDecision` and `disconnect` preserve the
host of every live session exactly, and `join` preserves it exactly
whenever it is already set. -/
theorem C7_host_invariants (S : Sessions) (tr : List Sessions)
    (hInv : SessInv S) (hK : KeysNodup S) (htr : EvTrace S tr) :
    (∀ T ∈ tr, SessInv T ∧ KeysNodup T ∧
       ∀ p ∈ T, ∀ q ∈ p.2.users, (q.2.isHost = true ↔ p.2.hostClientId = some q.2.clientId)) ∧
    (∀ id hhost sess, alookup id S = some sess → sess.hostClientId = some hhost →
       (∀ T ∈ tr, (alookup id T).isSome = true) →
       ∀ T ∈ tr, ∃ s1, alookup id T = some s1 ∧ s1.hostClientId = some hhost) ∧
    (∀ id sess, alookup id S = some sess →
       (∀ sid d rlOk, ∃ s1, alookup id (voteH sid d rlOk S).sessions = some s1 ∧
          s1.hostClientId = sess.hostClientId) ∧
       (∀ sid d rlOk, ∃ s1, alookup id (hostVotingDecisionH sid d rlOk S).1 = some s1 ∧
          s1.hostClientId = sess.hostClientId) ∧
       (∀ sid2, ∃ s1, alookup id (disconnectH sid2 S).1 = some s1 ∧
          s1.hostClientId = sess.hostClientId) ∧
       (∀ now nowUtc sid d led lj, sess.hostClientId ≠ none →
          ∃ s1, alookup id (joinH now nowUtc sid d led lj S).sessions = some s1 ∧
            s1.hostClientId = sess.hostClientId)) := by
  refine ⟨?_, ?_, ?_⟩
  · intro T hT
    obtain ⟨hI, hKT⟩ := trace_inv S tr htr hInv hK T hT
    exact ⟨hI, hKT, fun p hp q hq => (hI p hp).2 q hq⟩
  · intro id hhost sess hlk hh halive T hT
    exact trace_host_const S tr htr id hhost hInv hK sess hlk hh halive T hT
  · intro id sess hlk
    exact ⟨fun sid d rlOk => vote_host_exact sid d rlOk S id sess hlk,
           fun sid d rlOk => hostDec_host_exact sid d rlOk S id sess hlk,
           fun sid2 => disc_host_exact sid2 S hK id sess hlk,
           fun now nowUtc sid d led lj hset =>
             join_host_exact now nowUtc sid d led lj S hInv id sess hlk hset⟩

def c7D : HVDData := ⟨true, PyVal.vstr sessId, PyVal.vbool true⟩

def c7T0 : Sessions := (hostVotingDecisionH "sockA" c7D true aliceS).1

theorem C7_host_invariants_witness :
    SessInv aliceS ∧ KeysNodup aliceS ∧ EvTrace aliceS [c7T0] ∧
    ∃ s1, alookup sessId c7T0 = some s1 ∧ s1.hostClientId = some "clientAAA" := by
  have h1 : SessInv aliceS := by unfold SessInv SInv; decide
  have h2 : KeysNodup aliceS := by unfold KeysNodup; decide
  have h3 : EvTrace aliceS [c7T0] :=
    EvTrace.cons aliceS c7T0 [] (EvStep.hostDec "sockA" c7D true aliceS) (EvTrace.nil c7T0)
  refine ⟨h1, h2, h3, ?_⟩
  exact (C7_host_invariants aliceS [c7T0] h1 h2 h3).2.1 sessId "clientAAA" aliceSess rfl rfl
    (by intro T hT; rw [List.mem_singleton] at hT; subst hT; decide)
    c7T0 (List.mem_singleton.mpr rfl)
